import Mathlib

set_option linter.unusedVariables false

/-
Verification development for the naming/rule engine of mgear_core
(src/scripts/mgear/core/naming.py).  The module is shallowly embedded:

* Python strings are represented as `List Char` (`PStr`), so that the
  `"_"`-splitting and joining done by `Rule.solve`/`Rule.parse` can be
  reasoned about directly.
* Python dicts are represented as association lists in insertion order
  (`lookupA`/`updateA`/`eraseA` model `d.get`, `d[k] = v` and `del d[k]`).
  Per the specification, insertion order is the authoritative contract for
  "first item" behaviour.
* In-place mutation of `Token` objects (the `default()` caching) is made
  explicit: each method returns the updated token, and the registry-level
  functions write the updated token back into the token dict, mirroring the
  shared-reference mutation of the Python code.
* Fallible code returns `Except PyErr`; the registry state at the moment an
  exception propagates is also returned, since mutations performed before a
  raise persist in the Python module state.
* File system interaction of `load_rule`/`load_token` is abstracted by
  `FileContent`: a path is missing, holds text `json.load` rejects, or holds
  a parsed envelope document (`SerialData`).
-/

namespace Naming

/-- Python string, as its list of characters. -/
abbrev PStr := List Char

/-- Shorthand turning a Lean string literal into a `PStr`. -/
def pstr (s : String) : PStr := s.toList

/-- Embeds `d.get(k)` on an insertion-ordered dict. -/
def lookupA {V : Type} (k : PStr) : List (PStr × V) → Option V
  | [] => none
  | (k', v) :: rest => if k' = k then some v else lookupA k rest

/-- Embeds `d[k] = v` on an insertion-ordered dict: overwrite in place, else append. -/
def updateA {V : Type} (k : PStr) (v : V) : List (PStr × V) → List (PStr × V)
  | [] => [(k, v)]
  | (k', v') :: rest => if k' = k then (k, v) :: rest else (k', v') :: updateA k v rest

/-- Embeds `del d[k]` on an insertion-ordered dict. -/
def eraseA {V : Type} (k : PStr) (m : List (PStr × V)) : List (PStr × V) :=
  m.filter (fun p => decide (p.1 ≠ k))

/-- Python exceptions that the embedded code can raise; `unmodeledFormat`
is not an exception but an explicit abstraction marker: it stands for the
outcome of a `str.format` replacement field whose semantics depend on
Python machinery not modelled here (attribute/element access, `!`
conversions, `:` format specs on an existing argument, or brace characters
that alter the pattern's own field structure).  No theorem of this
development relies on the `unmodeledFormat` region. -/
inductive PyErr where
  | keyError
  | indexError
  | attributeError
  | unmodeledFormat
deriving DecidableEq

instance {ε α : Type} [DecidableEq ε] [DecidableEq α] : DecidableEq (Except ε α) := fun x y =>
  match x, y with
  | Except.error a, Except.error b =>
    if h : a = b then isTrue (by rw [h])
    else isFalse (fun hh => h (by injection hh))
  | Except.ok a, Except.ok b =>
    if h : a = b then isTrue (by rw [h])
    else isFalse (fun hh => h (by injection hh))
  | Except.error _, Except.ok _ => isFalse (fun hh => Except.noConfusion hh)
  | Except.ok _, Except.error _ => isFalse (fun hh => Except.noConfusion hh)

/-- Embeds `class Token`: `_name`, `_default`, `_items` (naming.py lines 38-44). -/
structure Token where
  nameT : PStr
  defaultT : Option PStr
  itemsT : List (PStr × PStr)
deriving DecidableEq

/-- Embeds `class Rule`: `_name`, `_fields` (naming.py lines 74-79). -/
structure Rule where
  nameR : PStr
  fieldsR : List PStr
deriving DecidableEq

/-- Embeds `Token.default` (lines 52-55): if `_default` is None and `_items` is
non-empty, cache the first item's value into `_default`; return `_default`.
The returned token is the (possibly mutated) object. -/
def Token.default (t : Token) : Option PStr × Token :=
  match t.defaultT with
  | some d => (some d, t)
  | none =>
    match t.itemsT with
    | [] => (none, t)
    | (_, v) :: _ => (some v, { t with defaultT := some v })

/-- Embeds `Token.set_default` (lines 49-50). -/
def Token.set_default (t : Token) (v : PStr) : Token :=
  { t with defaultT := some v }

/-- Embeds `Token.add_item` (lines 57-58): `self._items[name] = value`. -/
def Token.add_item (t : Token) (name value : PStr) : Token :=
  { t with itemsT := updateA name value t.itemsT }

/-- Embeds `Token.is_required` (lines 60-61): `self.default() is None`
(calling `default()` mutates the token, hence the returned token). -/
def Token.is_required (t : Token) : Bool × Token :=
  let p := Token.default t
  (p.1.isNone, p.2)

/-- Embeds `Token.solve` (lines 63-66): `default()` when called with None,
else `self._items.get(name)` (total: absent keys give None). -/
def Token.solve (t : Token) (name : Option PStr) : Option PStr × Token :=
  match name with
  | none => Token.default t
  | some n => (lookupA n t.itemsT, t)

/-- Embeds `Token.parse` (lines 68-71): first key whose value equals `value`,
in insertion order; None when no item matches. -/
def Token.parse (t : Token) (value : PStr) : Option PStr :=
  (t.itemsT.find? (fun kv => kv.2 == value)).map (fun kv => kv.1)

/-- Instance payload of a serialized object: the `__dict__` content of a
Token (`_name`, `_default`, `_items`) or of a Rule (`_name`, `_fields`). -/
inductive Payload where
  | tok (name : PStr) (default : Option PStr) (items : List (PStr × PStr))
  | rul (name : PStr) (fields : List PStr)
deriving DecidableEq

/-- A persisted envelope document (`Serializable.data`, lines 19-23):
instance state plus `_Serializable_classname` and `_Serializable_version`. -/
structure SerialData where
  classname : PStr
  version : Option PStr
  payload : Payload
deriving DecidableEq

/-- Embeds `Serializable.data` for a Token. -/
def Token.data (t : Token) : SerialData :=
  ⟨pstr "Token", some (pstr "1.0"), Payload.tok t.nameT t.defaultT t.itemsT⟩

/-- Embeds `Serializable.data` for a Rule. -/
def Rule.data (r : Rule) : SerialData :=
  ⟨pstr "Rule", some (pstr "1.0"), Payload.rul r.nameR r.fieldsR⟩

/-- Embeds `Token.from_data` (lines 25-35): None unless the classname tag is
"Token"; otherwise `Token(None)` with `__dict__` updated from the payload
(a mismatched rule-shaped payload leaves `_default`/`_items` at the
constructor values; stray attributes are not modelled). -/
def Token.from_data (d : SerialData) : Option Token :=
  if d.classname = pstr "Token" then
    some (match d.payload with
      | Payload.tok n df it => ⟨n, df, it⟩
      | Payload.rul n _ => ⟨n, none, []⟩)
  else none

/-- Embeds `Rule.from_data` (lines 25-35): None unless the classname tag is "Rule". -/
def Rule.from_data (d : SerialData) : Option Rule :=
  if d.classname = pstr "Rule" then
    some (match d.payload with
      | Payload.rul n fs => ⟨n, fs⟩
      | Payload.tok n _ _ => ⟨n, []⟩)
  else none

/-- A value stored in the `_rules` dict: the `"_active"` slot holds None or a
rule name (a Python string), every other slot holds a `Rule` object. -/
inductive RVal where
  | pnone
  | pstrv (s : PStr)
  | prule (r : Rule)
deriving DecidableEq

/-- Whether an `RVal` is an actual `Rule` object. -/
def isRuleVal : RVal → Bool
  | RVal.prule _ => true
  | _ => false

/-- The module-level registry: `_tokens` and `_rules` (lines 13-14). -/
structure Registry where
  tokens : List (PStr × Token)
  rules : List (PStr × RVal)
deriving DecidableEq

/-- Module state at import time: `_tokens = {}`, `_rules = {"_active": None}`. -/
def initState : Registry :=
  ⟨[], [(pstr "_active", RVal.pnone)]⟩

/-- Embeds `has_rule` (lines 132-133). -/
def has_rule (s : Registry) (name : PStr) : Bool :=
  (lookupA name s.rules).isSome

/-- Embeds `has_token` (lines 197-198). -/
def has_token (s : Registry) (name : PStr) : Bool :=
  (lookupA name s.tokens).isSome

/-- Embeds `_rules.get(k)` where `k` is the value read from the `"_active"` slot:
a string is looked up as a key; None or a Rule object is not a key. -/
def rulesGet (rules : List (PStr × RVal)) : RVal → Option RVal
  | RVal.pstrv k => lookupA k rules
  | _ => none

/-- Embeds `active_rule` (lines 136-138): `k = _rules["_active"]` (KeyError when the
slot was deleted) then `_rules.get(k)`. -/
def active_rule (s : Registry) : Except PyErr (Option RVal) :=
  match lookupA (pstr "_active") s.rules with
  | none => Except.error PyErr.keyError
  | some v => Except.ok (rulesGet s.rules v)

/-- Embeds `set_active_rule` (lines 141-145). -/
def set_active_rule (s : Registry) (name : PStr) : Bool × Registry :=
  if has_rule s name then
    (true, { s with rules := updateA (pstr "_active") (RVal.pstrv name) s.rules })
  else
    (false, s)

/-- Embeds `get_rule` (lines 148-149): note this returns whatever the slot holds,
including the `"_active"` pointer value itself. -/
def get_rule (s : Registry) (name : PStr) : Option RVal :=
  lookupA name s.rules

/-- Embeds `add_rule` (lines 110-116): build the rule, store it, then make it active
when `active_rule()` currently yields None; `active_rule()` itself can raise. -/
def add_rule (s : Registry) (name : PStr) (fields : List PStr) :
    Except PyErr Rule × Registry :=
  let r : Rule := ⟨name, fields⟩
  let s1 : Registry := { s with rules := updateA name (RVal.prule r) s.rules }
  match active_rule s1 with
  | Except.error e => (Except.error e, s1)
  | Except.ok none => (Except.ok r, (set_active_rule s1 name).2)
  | Except.ok (some _) => (Except.ok r, s1)

/-- Embeds `flush_rules` (lines 119-122): clear, then restore the `"_active"` slot. -/
def flush_rules (s : Registry) : Registry :=
  { s with rules := [(pstr "_active", RVal.pnone)] }

/-- Embeds `remove_rule` (lines 125-129). -/
def remove_rule (s : Registry) (name : PStr) : Bool × Registry :=
  if has_rule s name then
    (true, { s with rules := eraseA name s.rules })
  else
    (false, s)

/-- Embeds `add_token` (lines 174-182): the keyword `default` feeds `set_default`,
every other keyword becomes an item. -/
def add_token (s : Registry) (name : PStr) (kwds : List (PStr × PStr)) :
    Token × Registry :=
  let t := kwds.foldl
    (fun t kv =>
      if kv.1 = pstr "default" then Token.set_default t kv.2
      else Token.add_item t kv.1 kv.2)
    (⟨name, none, []⟩ : Token)
  (t, { s with tokens := updateA name t s.tokens })

/-- Embeds `flush_tokens` (lines 185-187). -/
def flush_tokens (s : Registry) : Registry :=
  { s with tokens := [] }

/-- Embeds `remove_token` (lines 190-194). -/
def remove_token (s : Registry) (name : PStr) : Bool × Registry :=
  if has_token s name then
    (true, { s with tokens := eraseA name s.tokens })
  else
    (false, s)

/-- Embeds `get_token` (lines 201-202). -/
def get_token (s : Registry) (name : PStr) : Option Token :=
  lookupA name s.tokens

/-- Content found at a file path handed to `load_rule`/`load_token`:
no file, text `json.load` raises on, or a parsed envelope document. -/
inductive FileContent where
  | missing
  | unparseable
  | parsed (d : SerialData)

/-- Embeds `load_rule` (lines 161-171): False for a missing file or a JSON error;
otherwise `Rule.from_data(data)` and, without any None check,
`_rules[rule.name()] = rule` — on a classname mismatch `rule` is None and
`rule.name()` raises AttributeError. -/
def load_rule (s : Registry) (c : FileContent) : Except PyErr Bool × Registry :=
  match c with
  | FileContent.missing => (Except.ok false, s)
  | FileContent.unparseable => (Except.ok false, s)
  | FileContent.parsed d =>
    match Rule.from_data d with
    | none => (Except.error PyErr.attributeError, s)
    | some r => (Except.ok true, { s with rules := updateA r.nameR (RVal.prule r) s.rules })

/-- Embeds `load_token` (lines 214-224): same shape as `load_rule`. -/
def load_token (s : Registry) (c : FileContent) : Except PyErr Bool × Registry :=
  match c with
  | FileContent.missing => (Except.ok false, s)
  | FileContent.unparseable => (Except.ok false, s)
  | FileContent.parsed d =>
    match Token.from_data d with
    | none => (Except.error PyErr.attributeError, s)
    | some t => (Except.ok true, { s with tokens := updateA t.nameT t s.tokens })

/-- Python `name.split("_")`: always non-empty, `"" -> [""]`. -/
def splitC : PStr → List PStr
  | [] => [[]]
  | c :: cs =>
    if c = '_' then [] :: splitC cs
    else
      match splitC cs with
      | [] => [[c]]
      | p :: ps => (c :: p) :: ps

/-- Joining with `"_"`, as done by the `{f1}_{f2}_...` format pattern. -/
def joinC : List PStr → PStr
  | [] => []
  | [p] => p
  | p :: q :: ps => p ++ '_' :: joinC (q :: ps)

/-- Field names on which `str.format` reduces to a plain keyword lookup:
not all digits (all-digit names, including the empty name, are positional
or auto-numbered references) and free of the field metacharacters
`!` `:` `.` `[` `{` `}` (a lone `]` has no special meaning in an arg name). -/
def plainFieldName (f : PStr) : Bool :=
  !(f.all (fun c => c.isDigit)) &&
  f.all (fun c => !(c == '!') && !(c == ':') && !(c == '.') && !(c == '[') &&
                  !(c == '{') && !(c == '}'))

/-- One `{f}` replacement field of `pattern.format(**values)`, which the
source always calls with zero positional arguments.  Python parses the
field: the part before the first `!` or `:` is the field name, whose part
before the first `.` or `[` is the arg name.  An all-digit or empty arg
name is a positional or auto-numbered reference and raises IndexError
(there are no positional arguments); a keyword arg name absent from
`values` raises KeyError — both checks happen in `get_field`, before any
conversion or format spec.  An arg name that is present but carries
accessors, a conversion or a format spec (and any name containing a brace,
which rewires the pattern itself) falls outside the modelled fragment and
is mapped to the explicit `unmodeledFormat` marker.  A plain present name
formats its value; a stored Python None prints as `"None"`. -/
def pyFormatField (values : List (PStr × Option PStr)) (f : PStr) : Except PyErr PStr :=
  if '{' ∈ f ∨ '}' ∈ f then Except.error PyErr.unmodeledFormat
  else if ((f.takeWhile (fun c => !(c == '!') && !(c == ':'))).takeWhile
      (fun c => !(c == '.') && !(c == '['))).all (fun c => c.isDigit) then
    Except.error PyErr.indexError
  else
    match lookupA ((f.takeWhile (fun c => !(c == '!') && !(c == ':'))).takeWhile
        (fun c => !(c == '.') && !(c == '['))) values with
    | none => Except.error PyErr.keyError
    | some v =>
      if (f.takeWhile (fun c => !(c == '!') && !(c == ':'))).takeWhile
          (fun c => !(c == '.') && !(c == '[')) = f then
        Except.ok (match v with | none => pstr "None" | some s => s)
      else Except.error PyErr.unmodeledFormat

/-- The replacement fields of the `{f1}_{f2}_...` pattern, processed left
to right as `str.format` does, stopping at the first raising field. -/
def fmtFields (values : List (PStr × Option PStr)) : List PStr → Except PyErr (List PStr)
  | [] => Except.ok []
  | f :: fs =>
    match pyFormatField values f with
    | Except.error e => Except.error e
    | Except.ok piece =>
      match fmtFields values fs with
      | Except.error e => Except.error e
      | Except.ok rest => Except.ok (piece :: rest)

/-- Embeds `Rule.solve` (lines 91-95): `self._pattern().format(**values)`.
With no fields the pattern is the positional field `"{}"` and
`format(**values)` raises IndexError; otherwise each replacement field is
processed by `pyFormatField` (an all-digit or empty field name also raises
IndexError there) and the pieces are joined with `"_"`. -/
def Rule.solve (r : Rule) (values : List (PStr × Option PStr)) : Except PyErr PStr :=
  if r.fieldsR.isEmpty then Except.error PyErr.indexError
  else
    match fmtFields values r.fieldsR with
    | Except.error e => Except.error e
    | Except.ok pieces => Except.ok (joinC pieces)

/-- Loop body of `Rule.parse` (lines 97-107): `value = split_name[i]`
(IndexError past the end), `token = _tokens[f]` (KeyError when missing),
`token.is_required()` (mutating), then either the raw piece or
`token.parse(value)`.  Threads the token dict and the result dict. -/
def ruleParseGo (split : List PStr) :
    List PStr → Nat → List (PStr × Token) → List (PStr × Option PStr) →
    Except PyErr (List (PStr × Option PStr)) × List (PStr × Token)
  | [], _, tks, rv => (Except.ok rv, tks)
  | f :: fs, i, tks, rv =>
    match split.get? i with
    | none => (Except.error PyErr.indexError, tks)
    | some piece =>
      match lookupA f tks with
      | none => (Except.error PyErr.keyError, tks)
      | some t =>
        let p := Token.is_required t
        let tks1 := updateA f p.2 tks
        if p.1 then ruleParseGo split fs (i + 1) tks1 (updateA f (some piece) rv)
        else ruleParseGo split fs (i + 1) tks1 (updateA f (Token.parse p.2 piece) rv)

/-- Embeds `Rule.parse` (lines 97-107), with the global `_tokens` passed explicitly. -/
def Rule.parse (r : Rule) (tks : List (PStr × Token)) (name : PStr) :
    Except PyErr (List (PStr × Option PStr)) × List (PStr × Token) :=
  ruleParseGo (splitC name) r.fieldsR 0 tks []

/-- Loop body of module-level `solve` (lines 227-241): for each field, fetch
the token (KeyError when missing), call `is_required()` (mutating); a
required field takes `kwds[f]` when `kwds.get(f) is not None`, else the next
positional argument (IndexError when exhausted); an optional field takes
`token.solve(kwds.get(f))` (mutating).  Threads the token dict and `values`. -/
def solveGo (args : List PStr) (kwds : List (PStr × Option PStr)) :
    List PStr → Nat → List (PStr × Token) → List (PStr × Option PStr) →
    Except PyErr (List (PStr × Option PStr)) × List (PStr × Token)
  | [], _, tks, vals => (Except.ok vals, tks)
  | f :: fs, i, tks, vals =>
    match lookupA f tks with
    | none => (Except.error PyErr.keyError, tks)
    | some t =>
      let p := Token.is_required t
      let tks1 := updateA f p.2 tks
      if p.1 then
        match lookupA f kwds with
        | some (some v) => solveGo args kwds fs i tks1 (updateA f (some v) vals)
        | _ =>
          match args.get? i with
          | none => (Except.error PyErr.indexError, tks1)
          | some a => solveGo args kwds fs (i + 1) tks1 (updateA f (some a) vals)
      else
        let q := Token.solve p.2 ((lookupA f kwds).join)
        solveGo args kwds fs i (updateA f q.2 tks1) (updateA f q.1 vals)

/-- Module-level `solve` (lines 227-241): resolve field values against the
active rule, then `rule.solve(**values)`.  `active_rule()` may raise
KeyError; a non-Rule active value raises AttributeError at `rule.fields()`. -/
def solve (s : Registry) (args : List PStr) (kwds : List (PStr × Option PStr)) :
    Except PyErr PStr × Registry :=
  match active_rule s with
  | Except.error e => (Except.error e, s)
  | Except.ok (some (RVal.prule r)) =>
    let p := solveGo args kwds r.fieldsR 0 s.tokens []
    let res := match p.1 with
      | Except.error e => Except.error e
      | Except.ok vals => Rule.solve r vals
    (res, { s with tokens := p.2 })
  | Except.ok _ => (Except.error PyErr.attributeError, s)

/-- Module-level `parse` (lines 244-246): delegate to the active rule. -/
def parse (s : Registry) (name : PStr) :
    Except PyErr (List (PStr × Option PStr)) × Registry :=
  match active_rule s with
  | Except.error e => (Except.error e, s)
  | Except.ok (some (RVal.prule r)) =>
    let p := Rule.parse r s.tokens name
    (p.1, { s with tokens := p.2 })
  | Except.ok _ => (Except.error PyErr.attributeError, s)

/-- The registry-mutating operations of the module, for reachability
arguments.  `loadRuleOp`/`loadTokenOp` carry the file content found at the
path; `solveOp`/`parseOp` are included because they mutate tokens. -/
inductive Op where
  | addTokenOp (n : PStr) (kw : List (PStr × PStr))
  | flushTokensOp
  | removeTokenOp (n : PStr)
  | loadTokenOp (c : FileContent)
  | addRuleOp (n : PStr) (fs : List PStr)
  | flushRulesOp
  | removeRuleOp (n : PStr)
  | setActiveRuleOp (n : PStr)
  | loadRuleOp (c : FileContent)
  | solveOp (args : List PStr) (kwds : List (PStr × Option PStr))
  | parseOp (n : PStr)

/-- State transition of one registry operation (return values discarded). -/
def applyOp (s : Registry) : Op → Registry
  | Op.addTokenOp n kw => (add_token s n kw).2
  | Op.flushTokensOp => flush_tokens s
  | Op.removeTokenOp n => (remove_token s n).2
  | Op.loadTokenOp c => (load_token s c).2
  | Op.addRuleOp n fs => (add_rule s n fs).2
  | Op.flushRulesOp => flush_rules s
  | Op.removeRuleOp n => (remove_rule s n).2
  | Op.setActiveRuleOp n => (set_active_rule s n).2
  | Op.loadRuleOp c => (load_rule s c).2
  | Op.solveOp args kwds => (solve s args kwds).2
  | Op.parseOp n => (parse s n).2

/-- Run a sequence of registry operations from a state. -/
def runOps (s : Registry) (l : List Op) : Registry :=
  l.foldl applyOp s

/-- Every operation except `remove_rule("_active")`. -/
def notRemoveActive : Op → Bool
  | Op.removeRuleOp n => decide (n ≠ pstr "_active")
  | _ => true

/-- Operations that never use the reserved name `"_active"` as a rule name
(as an argument, or as the stored name of a loaded rule document). -/
def opAvoidsActive : Op → Bool
  | Op.addRuleOp n _ => decide (n ≠ pstr "_active")
  | Op.removeRuleOp n => decide (n ≠ pstr "_active")
  | Op.setActiveRuleOp n => decide (n ≠ pstr "_active")
  | Op.loadRuleOp c =>
    match c with
    | FileContent.parsed d =>
      match Rule.from_data d with
      | some r => decide (r.nameR ≠ pstr "_active")
      | none => true
    | _ => true
  | _ => true

/-- No two items of a token share an emitted value (injective item mapping). -/
def distinctVals : List (PStr × PStr) → Bool
  | [] => true
  | (_, w) :: rest => decide (∀ p ∈ rest, p.2 ≠ w) && distinctVals rest

/-- Validity of the value chosen for one field of a rule, for the round-trip
property: the field's token exists; a required field gets a delimiter-free
free-form string; an optional field gets a key of the token's items whose
emitted value is delimiter-free, the item mapping being injective. -/
def fieldOKv (tokens : List (PStr × Token)) (v : PStr → PStr) (f : PStr) : Bool :=
  match lookupA f tokens with
  | none => false
  | some t =>
    if (Token.is_required t).1 then decide ('_' ∉ v f)
    else
      match lookupA (v f) t.itemsT with
      | none => false
      | some w => decide ('_' ∉ w) && distinctVals t.itemsT

/-- The string emitted for field `f` when `solve` is given the values `v`. -/
def emitF (tokens : List (PStr × Token)) (v : PStr → PStr) (f : PStr) : PStr :=
  match lookupA f tokens with
  | none => []
  | some t =>
    if (Token.is_required t).1 then v f
    else (lookupA (v f) t.itemsT).getD []

end Naming

namespace Naming

/-- Counterexample setup for the round-trip claim: one optional token whose
single item emits a value containing the delimiter, and a one-field rule. -/
def c1CexS : Registry :=
  (add_rule (add_token initState (pstr "side") [(pstr "left", pstr "a_b")]).2
    (pstr "r") [pstr "side"]).2

/-- Witness setup for the amended round-trip: a required and an optional
field with delimiter-free values. -/
def c1WitS : Registry :=
  (add_rule
    (add_token (add_token initState (pstr "description") []).2
      (pstr "side") [(pstr "left", pstr "L")]).2
    (pstr "r") [pstr "description", pstr "side"]).2

/-- Value assignment used by the round-trip witness. -/
def c1WitV : PStr → PStr :=
  fun f => if f = pstr "description" then pstr "foo" else pstr "left"

/-- The concrete scenario of the specification: tokens `description`,
`side`, `type` and active rule `["description", "side", "type"]`. -/
def c2S : Registry :=
  (add_rule
    (add_token
      (add_token (add_token initState (pstr "description") []).2
        (pstr "side")
        [(pstr "left", pstr "L"), (pstr "right", pstr "R"),
         (pstr "middle", pstr "M"), (pstr "default", pstr "M")]).2
      (pstr "type")
      [(pstr "animation", pstr "anim"), (pstr "control", pstr "ctrl"),
       (pstr "default", pstr "ctrl")]).2
    (pstr "r") [pstr "description", pstr "side", pstr "type"]).2

/-- Counterexample setup for the malformed-name claim: a single required
field, so that a two-piece input has extra pieces. -/
def c3CexS : Registry :=
  (add_rule (add_token initState (pstr "description") []).2
    (pstr "r") [pstr "description"]).2

/-- Witness setup for the amended malformed-name claim: two fields. -/
def c3WitS : Registry :=
  (add_rule
    (add_token (add_token initState (pstr "description") []).2
      (pstr "side") [(pstr "left", pstr "L")]).2
    (pstr "r") [pstr "description", pstr "side"]).2

/-- A token with items but no matching key for `"bogus"`. -/
def c4CexT : Token :=
  ⟨pstr "side", none, [(pstr "left", pstr "L")]⟩

/-- Token used by the default-mutation witness. -/
def c9WitT : Token :=
  ⟨pstr "side", none, [(pstr "left", pstr "L"), (pstr "right", pstr "R")]⟩

/-- Witness setup for default substitution: optional token `side` whose
explicit default `"M"` is also the emitted value of key `"middle"`. -/
def c7WitS : Registry :=
  (add_rule
    (add_token (add_token initState (pstr "description") []).2
      (pstr "side")
      [(pstr "left", pstr "L"), (pstr "middle", pstr "M"),
       (pstr "default", pstr "M")]).2
    (pstr "r") [pstr "description", pstr "side"]).2

/-- A registry state with one ordinary rule `"x"` installed and active. -/
def c10WitS : Registry :=
  runOps initState [Op.addRuleOp (pstr "x") [pstr "f"]]

/-- Structural invariant of the `_rules` dict when the reserved name
`"_active"` is never used as a rule name: the `"_active"` slot holds None
or a rule name other than `"_active"`, and every other slot holds a Rule. -/
def rulesInvL (rules : List (PStr × RVal)) : Prop :=
  (∃ w, lookupA (pstr "_active") rules = some w ∧
    (w = RVal.pnone ∨ ∃ nm, w = RVal.pstrv nm ∧ nm ≠ pstr "_active")) ∧
  (∀ k w, k ≠ pstr "_active" → lookupA k rules = some w → ∃ rr, w = RVal.prule rr)

end Naming

namespace Naming

theorem lookupA_updateA {V : Type} (k k' : PStr) (v : V) (m : List (PStr × V)) :
    lookupA k' (updateA k v m) = if k' = k then some v else lookupA k' m := by
  induction m with
  | nil =>
    by_cases h : k' = k
    · subst h; simp [lookupA, updateA]
    · have h2 : ¬(k = k') := fun hh => h hh.symm
      simp [lookupA, updateA, h, h2]
  | cons p rest ih =>
    obtain ⟨k0, v0⟩ := p
    simp only [updateA]
    by_cases h0 : k0 = k
    · subst h0
      rw [if_pos rfl]
      by_cases h1 : k' = k0
      · subst h1; simp [lookupA]
      · have h2 : ¬(k0 = k') := fun hh => h1 hh.symm
        simp [lookupA, h1, h2]
    · rw [if_neg h0]
      by_cases h2 : k0 = k'
      · subst h2
        have h3 : ¬(k0 = k) := h0
        simp [lookupA, fun hh => h3 hh]
      · simp [lookupA, h2, ih]

theorem lookupA_updateA_self {V : Type} (k : PStr) (v : V) (m : List (PStr × V)) :
    lookupA k (updateA k v m) = some v := by
  simp [lookupA_updateA]

theorem lookupA_updateA_ne {V : Type} {k k' : PStr} (v : V) (m : List (PStr × V))
    (h : k' ≠ k) : lookupA k' (updateA k v m) = lookupA k' m := by
  simp [lookupA_updateA, h]

theorem updateA_of_lookupA_none {V : Type} {k : PStr} {m : List (PStr × V)} (v : V)
    (h : lookupA k m = none) : updateA k v m = m ++ [(k, v)] := by
  induction m with
  | nil => simp [updateA]
  | cons p rest ih =>
    obtain ⟨k0, v0⟩ := p
    by_cases h0 : k0 = k
    · simp [lookupA, h0] at h
    · simp [lookupA, h0] at h
      simp [updateA, h0, ih h]

theorem lookupA_eraseA {V : Type} (k k' : PStr) (m : List (PStr × V)) :
    lookupA k' (eraseA k m) = if k' = k then none else lookupA k' m := by
  induction m with
  | nil => by_cases h : k' = k <;> simp [lookupA, eraseA, h]
  | cons p rest ih =>
    obtain ⟨k0, v0⟩ := p
    by_cases h0 : k0 = k
    · subst h0
      have hdrop : eraseA k0 ((k0, v0) :: rest) = eraseA k0 rest := by
        simp [eraseA, List.filter_cons]
      rw [hdrop, ih]
      by_cases h1 : k' = k0
      · simp [h1]
      · have h2 : ¬(k0 = k') := fun hh => h1 hh.symm
        simp [lookupA, h1, h2]
    · have hkeep : eraseA k ((k0, v0) :: rest) = (k0, v0) :: eraseA k rest := by
        simp [eraseA, List.filter_cons, h0]
      rw [hkeep]
      by_cases h2 : k0 = k'
      · subst h2
        have h3 : ¬(k0 = k) := h0
        simp [lookupA, fun hh => h3 hh]
      · simp [lookupA, h2, ih]

theorem isSome_lookupA_updateA {V : Type} {k' : PStr} (k : PStr) (v : V)
    {m : List (PStr × V)} (h : (lookupA k' m).isSome = true) :
    (lookupA k' (updateA k v m)).isSome = true := by
  by_cases hk : k' = k <;> simp [lookupA_updateA, hk, h]

theorem lookupA_mem {V : Type} {k : PStr} {v : V} :
    ∀ {m : List (PStr × V)}, lookupA k m = some v → (k, v) ∈ m := by
  intro m
  induction m with
  | nil => intro h; simp [lookupA] at h
  | cons p rest ih =>
    obtain ⟨k0, v0⟩ := p
    intro h
    by_cases h0 : k0 = k
    · subst h0
      simp [lookupA] at h
      simp [h]
    · simp [lookupA, h0] at h
      exact List.mem_cons_of_mem _ (ih h)

theorem lookupA_map_self {β : Type} (h : PStr → β) :
    ∀ (l : List PStr), ∀ f ∈ l,
      lookupA f (l.map (fun g => (g, h g))) = some (h f) := by
  intro l
  induction l with
  | nil => intro f hf; simp at hf
  | cons g rest ih =>
    intro f hf
    by_cases hgf : g = f
    · subst hgf; simp [lookupA]
    · have hfr : f ∈ rest := by
        rcases List.mem_cons.mp hf with hfe | hfr
        · exact absurd hfe.symm hgf
        · exact hfr
      simp [lookupA, hgf]
      exact ih f hfr

theorem lookupA_foldl_updateA {V : Type} (x : PStr → V) :
    ∀ (fields : List PStr) (init : List (PStr × V)) (g : PStr),
      lookupA g (fields.foldl (fun m f => updateA f (x f) m) init)
        = if g ∈ fields then some (x g) else lookupA g init := by
  intro fields
  induction fields with
  | nil => intro init g; simp
  | cons f fs ih =>
    intro init g
    rw [List.foldl_cons, ih]
    by_cases hgfs : g ∈ fs
    · simp [hgfs]
    · by_cases hgf : g = f
      · subst hgf
        simp [hgfs, lookupA_updateA_self]
      · simp [hgfs, hgf, lookupA_updateA_ne (x f) init hgf]

theorem takeWhile_all {p : Char → Bool} :
    ∀ (l : List Char), (∀ c ∈ l, p c = true) → l.takeWhile p = l := by
  intro l
  induction l with
  | nil => intro _; rfl
  | cons c cs ih =>
    intro h
    have hc := h c (List.mem_cons_self c cs)
    rw [List.takeWhile_cons, if_pos hc, ih (fun x hx => h x (List.mem_cons_of_mem c hx))]

theorem pyFormatField_plain (values : List (PStr × Option PStr)) (f w : PStr)
    (hp : plainFieldName f = true) (hv : lookupA f values = some (some w)) :
    pyFormatField values f = Except.ok w := by
  have hp2 := hp
  unfold plainFieldName at hp2
  rw [Bool.and_eq_true] at hp2
  obtain ⟨hd, hm⟩ := hp2
  have hall := List.all_eq_true.mp hm
  have hbrace : ¬('{' ∈ f ∨ '}' ∈ f) := by
    rintro (hmem | hmem) <;> · have := hall _ hmem; simp at this
  have h1 : f.takeWhile (fun c => !(c == '!') && !(c == ':')) = f := by
    apply takeWhile_all
    intro c hc
    have hcprop := hall c hc
    simp only [Bool.and_eq_true] at hcprop
    obtain ⟨⟨⟨⟨⟨hA, hB⟩, hC⟩, hD⟩, hE⟩, hF⟩ := hcprop
    rw [Bool.and_eq_true]
    exact ⟨hA, hB⟩
  have h2 : f.takeWhile (fun c => !(c == '.') && !(c == '[')) = f := by
    apply takeWhile_all
    intro c hc
    have hcprop := hall c hc
    simp only [Bool.and_eq_true] at hcprop
    obtain ⟨⟨⟨⟨⟨hA, hB⟩, hC⟩, hD⟩, hE⟩, hF⟩ := hcprop
    rw [Bool.and_eq_true]
    exact ⟨hC, hD⟩
  have hArg : (f.takeWhile (fun c => !(c == '!') && !(c == ':'))).takeWhile
      (fun c => !(c == '.') && !(c == '[')) = f := by
    rw [h1]
    exact h2
  have hdig : ¬(f.all (fun c => c.isDigit) = true) := by
    rw [Bool.not_eq_true'] at hd
    simp [hd]
  unfold pyFormatField
  rw [if_neg hbrace, hArg, if_neg hdig, hv]
  simp

theorem pyFormatField_positional (values : List (PStr × Option PStr)) :
    pyFormatField values (pstr "0") = Except.error PyErr.indexError ∧
    pyFormatField values [] = Except.error PyErr.indexError := by
  constructor <;> rfl

end Naming

namespace Naming

theorem default_snd_items (t : Token) : (Token.default t).2.itemsT = t.itemsT := by
  obtain ⟨n, d, it⟩ := t
  cases d <;> cases it <;> simp [Token.default]

theorem default_snd_name (t : Token) : (Token.default t).2.nameT = t.nameT := by
  obtain ⟨n, d, it⟩ := t
  cases d <;> cases it <;> simp [Token.default]

theorem default_fix (t : Token) :
    Token.default (Token.default t).2 = ((Token.default t).1, (Token.default t).2) := by
  obtain ⟨n, d, it⟩ := t
  cases d with
  | some v => simp [Token.default]
  | none =>
    cases it with
    | nil => simp [Token.default]
    | cons p rest => simp [Token.default]

theorem is_required_fix (t : Token) :
    Token.is_required (Token.is_required t).2
      = ((Token.is_required t).1, (Token.is_required t).2) := by
  simp [Token.is_required, default_fix t]

theorem is_required_snd_items (t : Token) :
    (Token.is_required t).2.itemsT = t.itemsT := by
  simp [Token.is_required, default_snd_items t]

theorem default_of_is_required (t : Token) :
    Token.default (Token.is_required t).2 = ((Token.default t).1, (Token.is_required t).2) := by
  simp [Token.is_required, default_fix t]

theorem splitC_ne_nil (x : PStr) : ∃ p ps, splitC x = p :: ps := by
  induction x with
  | nil => exact ⟨[], [], rfl⟩
  | cons c cs ih =>
    obtain ⟨p, ps, hp⟩ := ih
    by_cases h : c = '_'
    · exact ⟨[], splitC cs, by simp [splitC, h]⟩
    · exact ⟨c :: p, ps, by simp [splitC, h, hp]⟩

theorem splitC_no_delim (p : PStr) (h : '_' ∉ p) : splitC p = [p] := by
  induction p with
  | nil => rfl
  | cons c cs ih =>
    have hc : c ≠ '_' := fun he => h (he ▸ List.mem_cons_self c cs)
    have hcs : '_' ∉ cs := fun hm => h (List.mem_cons_of_mem c hm)
    simp [splitC, hc, ih hcs]

theorem splitC_append (p t : PStr) (h : '_' ∉ p) :
    splitC (p ++ '_' :: t) = p :: splitC t := by
  induction p with
  | nil => simp [splitC]
  | cons c cs ih =>
    have hc : c ≠ '_' := fun he => h (he ▸ List.mem_cons_self c cs)
    have hcs : '_' ∉ cs := fun hm => h (List.mem_cons_of_mem c hm)
    have := ih hcs
    obtain ⟨q, qs, hq⟩ := splitC_ne_nil t
    simp [splitC, hc, this]

theorem splitC_joinC (l : List PStr) (hne : l ≠ []) (hfree : ∀ p ∈ l, '_' ∉ p) :
    splitC (joinC l) = l := by
  induction l with
  | nil => exact absurd rfl hne
  | cons p rest ih =>
    cases rest with
    | nil =>
      simp [joinC, splitC_no_delim p (hfree p (List.mem_cons_self p []))]
    | cons q qs =>
      have hp : '_' ∉ p := hfree p (List.mem_cons_self p _)
      have hrest : ∀ x ∈ q :: qs, '_' ∉ x := fun x hx =>
        hfree x (List.mem_cons_of_mem p hx)
      have hr := ih (by simp) hrest
      simp [joinC, splitC_append p _ hp, hr]

theorem fmtFields_ok (values : List (PStr × Option PStr)) (e : PStr → PStr) :
    ∀ (fields : List PStr),
      (∀ g ∈ fields, plainFieldName g = true) →
      (∀ g ∈ fields, lookupA g values = some (some (e g))) →
      fmtFields values fields = Except.ok (fields.map e) := by
  intro fields
  induction fields with
  | nil => intro _ _; rfl
  | cons f fs ih =>
    intro hp h
    have hf := pyFormatField_plain values f (e f)
      (hp f (List.mem_cons_self f fs)) (h f (List.mem_cons_self f fs))
    have hr := ih (fun g hg => hp g (List.mem_cons_of_mem f hg))
      (fun g hg => h g (List.mem_cons_of_mem f hg))
    simp [fmtFields, hf, hr]

theorem find?_items (items : List (PStr × PStr)) (k w : PStr)
    (hlk : lookupA k items = some w) (hd : distinctVals items = true) :
    items.find? (fun kv => kv.2 == w) = some (k, w) := by
  induction items with
  | nil => simp [lookupA] at hlk
  | cons p rest ih =>
    obtain ⟨k0, w0⟩ := p
    simp only [distinctVals, Bool.and_eq_true, decide_eq_true_eq] at hd
    by_cases h0 : k0 = k
    · subst h0
      simp [lookupA] at hlk
      subst hlk
      simp [List.find?]
    · simp only [lookupA, if_neg h0] at hlk
      have hmem : (k, w) ∈ rest := lookupA_mem hlk
      have hne : w ≠ w0 := by
        intro he
        exact hd.1 (k, w) hmem (by simp [he])
      have hb : ((k0, w0).2 == w) = false := by
        simp [hne]
        intro he; exact hne he.symm
      rw [List.find?]
      simp only [hb]
      exact ih hlk hd.2

theorem get?_of_drop {α : Type} :
    ∀ (l : List α) (i : Nat) (x : α) (xs : List α), l.drop i = x :: xs → l.get? i = some x := by
  intro l
  induction l with
  | nil => intro i x xs h; simp at h
  | cons a as ih =>
    intro i x xs h
    cases i with
    | zero => simp at h; simp [h.1]
    | succ j =>
      simp only [List.drop_succ_cons] at h
      simpa using ih j x xs h

theorem drop_succ_of_drop {α : Type} :
    ∀ (l : List α) (i : Nat) (x : α) (xs : List α), l.drop i = x :: xs → l.drop (i + 1) = xs := by
  intro l
  induction l with
  | nil => intro i x xs h; simp at h
  | cons a as ih =>
    intro i x xs h
    cases i with
    | zero => simp at h ⊢; simp [h.2]
    | succ j =>
      simp only [List.drop_succ_cons] at h ⊢
      exact ih j x xs h

theorem solve_rules_eq (s : Registry) (args : List PStr) (kwds : List (PStr × Option PStr)) :
    (solve s args kwds).2.rules = s.rules := by
  unfold solve
  cases active_rule s with
  | error e => rfl
  | ok o =>
    cases o with
    | none => rfl
    | some rv => cases rv <;> rfl

theorem parse_rules_eq (s : Registry) (name : PStr) :
    (parse s name).2.rules = s.rules := by
  unfold parse
  cases active_rule s with
  | error e => rfl
  | ok o =>
    cases o with
    | none => rfl
    | some rv => cases rv <;> rfl

end Naming

namespace Naming

theorem fieldOKv_eq_of_lookup (tokens : List (PStr × Token)) (v : PStr → PStr)
    (f : PStr) (t : Token) (h : lookupA f tokens = some t) :
    fieldOKv tokens v f =
      (if (Token.is_required t).1 then decide ('_' ∉ v f)
       else
         match lookupA (v f) t.itemsT with
         | none => false
         | some w => decide ('_' ∉ w) && distinctVals t.itemsT) := by
  unfold fieldOKv
  rw [h]

theorem fieldOKv_required {tokens : List (PStr × Token)} {v : PStr → PStr} {g : PStr}
    {t : Token} (h : lookupA g tokens = some t)
    (hreq : (Token.is_required t).1 = true) (hok : fieldOKv tokens v g = true) :
    '_' ∉ v g ∧ emitF tokens v g = v g := by
  rw [fieldOKv_eq_of_lookup tokens v g t h, hreq] at hok
  simp only [if_true, decide_eq_true_eq] at hok
  refine ⟨hok, ?_⟩
  unfold emitF
  rw [h]
  simp [hreq]

theorem fieldOKv_optional {tokens : List (PStr × Token)} {v : PStr → PStr} {g : PStr}
    {t : Token} (h : lookupA g tokens = some t)
    (hreq : (Token.is_required t).1 = false) (hok : fieldOKv tokens v g = true) :
    ∃ w, lookupA (v g) t.itemsT = some w ∧ '_' ∉ w ∧ distinctVals t.itemsT = true ∧
      emitF tokens v g = w := by
  rw [fieldOKv_eq_of_lookup tokens v g t h, hreq] at hok
  simp only [Bool.false_eq_true, if_false] at hok
  cases h1 : lookupA (v g) t.itemsT with
  | none => rw [h1] at hok; simp at hok
  | some w =>
    rw [h1] at hok
    simp only [Bool.and_eq_true, decide_eq_true_eq] at hok
    refine ⟨w, rfl, hok.1, hok.2, ?_⟩
    unfold emitF
    rw [h]
    simp [hreq, h1]

theorem emitF_free {tokens : List (PStr × Token)} {v : PStr → PStr} {g : PStr}
    (hok : fieldOKv tokens v g = true) : '_' ∉ emitF tokens v g := by
  cases h : lookupA g tokens with
  | none => unfold fieldOKv at hok; rw [h] at hok; simp at hok
  | some t =>
    cases hreq : (Token.is_required t).1 with
    | true =>
      obtain ⟨hfree, hemit⟩ := fieldOKv_required h hreq hok
      rw [hemit]; exact hfree
    | false =>
      obtain ⟨w, _, hfree, _, hemit⟩ := fieldOKv_optional h hreq hok
      rw [hemit]; exact hfree


theorem solveGo_roundtrip (tokens0 : List (PStr × Token)) (v : PStr → PStr)
    (kwds : List (PStr × Option PStr)) :
    ∀ (fields : List PStr) (i : Nat) (tks : List (PStr × Token))
      (vals : List (PStr × Option PStr)),
      (∀ g ∈ fields, ∃ t0 t, lookupA g tokens0 = some t0 ∧ lookupA g tks = some t ∧
        t.itemsT = t0.itemsT ∧ (Token.default t).1 = (Token.default t0).1) →
      (∀ g ∈ fields, fieldOKv tokens0 v g = true) →
      (∀ g ∈ fields, lookupA g kwds = some (some (v g))) →
      ∃ tks',
        solveGo [] kwds fields i tks vals =
          (Except.ok (fields.foldl
            (fun m f => updateA f (some (emitF tokens0 v f)) m) vals), tks') ∧
        (∀ g, g ∉ fields → lookupA g tks' = lookupA g tks) ∧
        (∀ g ∈ fields, ∃ t0 t', lookupA g tokens0 = some t0 ∧ lookupA g tks' = some t' ∧
          t'.itemsT = t0.itemsT ∧ Token.is_required t' = ((Token.is_required t0).1, t')) := by
  intro fields
  induction fields with
  | nil =>
    intro i tks vals _ _ _
    exact ⟨tks, by simp [solveGo], fun g _ => rfl, by simp⟩
  | cons f fs ih =>
    intro i tks vals hsame hok hkw
    have hfmem : f ∈ f :: fs := List.mem_cons_self f fs
    have hfok := hok f hfmem
    have hfkw := hkw f hfmem
    obtain ⟨t0, t, ht0, ht, hitems, hdv⟩ := hsame f hfmem
    have hflag : (Token.is_required t).1 = (Token.is_required t0).1 := by
      simp [Token.is_required, hdv]
    have hstabItems : (Token.is_required t).2.itemsT = t0.itemsT := by
      rw [is_required_snd_items]
      exact hitems
    have hstabDv : (Token.default (Token.is_required t).2).1 = (Token.default t0).1 := by
      rw [default_of_is_required]
      exact hdv
    have hstabFix : Token.is_required (Token.is_required t).2
        = ((Token.is_required t0).1, (Token.is_required t).2) := by
      rw [is_required_fix, hflag]
    have hsameMk : ∀ (tks2 : List (PStr × Token)),
        (∀ g, lookupA g tks2
          = if g = f then some (Token.is_required t).2 else lookupA g tks) →
        ∀ g ∈ fs, ∃ u0 u, lookupA g tokens0 = some u0 ∧ lookupA g tks2 = some u ∧
          u.itemsT = u0.itemsT ∧ (Token.default u).1 = (Token.default u0).1 := by
      intro tks2 hl g hg
      by_cases hgf : g = f
      · subst hgf
        exact ⟨t0, (Token.is_required t).2, ht0, by rw [hl g, if_pos rfl],
          hstabItems, hstabDv⟩
      · obtain ⟨u0, u, hu0, hu, hui, hud⟩ := hsame g (List.mem_cons_of_mem f hg)
        exact ⟨u0, u, hu0, by rw [hl g, if_neg hgf]; exact hu, hui, hud⟩
    cases hreq0 : (Token.is_required t0).1 with
    | true =>
      have hreqt : (Token.is_required t).1 = true := by rw [hflag, hreq0]
      have hemit : emitF tokens0 v f = v f := (fieldOKv_required ht0 hreq0 hfok).2
      have hstep : solveGo [] kwds (f :: fs) i tks vals =
          solveGo [] kwds fs i (updateA f (Token.is_required t).2 tks)
            (updateA f (some (v f)) vals) := by
        simp only [solveGo, ht, hreqt, hfkw, if_true]
      obtain ⟨tks', heq, hout, hprops⟩ :=
        ih i (updateA f (Token.is_required t).2 tks) (updateA f (some (v f)) vals)
          (hsameMk _ (fun g => lookupA_updateA f g (Token.is_required t).2 tks))
          (fun g hg => hok g (List.mem_cons_of_mem f hg))
          (fun g hg => hkw g (List.mem_cons_of_mem f hg))
      refine ⟨tks', ?_, ?_, ?_⟩
      · rw [hstep, heq, List.foldl_cons, hemit]
      · intro g hg
        have hgf : g ≠ f := fun he => hg (he ▸ hfmem)
        have hgfs : g ∉ fs := fun hm => hg (List.mem_cons_of_mem f hm)
        rw [hout g hgfs, lookupA_updateA_ne _ _ hgf]
      · intro g hg
        by_cases hgfs : g ∈ fs
        · exact hprops g hgfs
        · have hgf : g = f := by
            rcases List.mem_cons.mp hg with he | hm
            · exact he
            · exact absurd hm hgfs
          subst hgf
          refine ⟨t0, (Token.is_required t).2, ht0, ?_, hstabItems, hstabFix⟩
          rw [hout g hgfs, lookupA_updateA_self]
    | false =>
      have hreqt : (Token.is_required t).1 = false := by rw [hflag, hreq0]
      obtain ⟨w, hlw, hwfree, hdist, hemit⟩ := fieldOKv_optional ht0 hreq0 hfok
      have hsolve : Token.solve (Token.is_required t).2 ((lookupA f kwds).join)
          = (some w, (Token.is_required t).2) := by
        rw [hfkw]
        simp [Token.solve, Option.join, hstabItems, hlw]
      have hstep : solveGo [] kwds (f :: fs) i tks vals =
          solveGo [] kwds fs i
            (updateA f (Token.is_required t).2 (updateA f (Token.is_required t).2 tks))
            (updateA f (some w) vals) := by
        simp only [solveGo, ht, hreqt, Bool.false_eq_true, if_false, hsolve]
      obtain ⟨tks', heq, hout, hprops⟩ :=
        ih i (updateA f (Token.is_required t).2 (updateA f (Token.is_required t).2 tks))
          (updateA f (some w) vals)
          (hsameMk _ (fun g => by
            by_cases hgf : g = f <;> simp [lookupA_updateA, hgf]))
          (fun g hg => hok g (List.mem_cons_of_mem f hg))
          (fun g hg => hkw g (List.mem_cons_of_mem f hg))
      refine ⟨tks', ?_, ?_, ?_⟩
      · rw [hstep, heq, List.foldl_cons, hemit]
      · intro g hg
        have hgf : g ≠ f := fun he => hg (he ▸ hfmem)
        have hgfs : g ∉ fs := fun hm => hg (List.mem_cons_of_mem f hm)
        rw [hout g hgfs, lookupA_updateA_ne _ _ hgf, lookupA_updateA_ne _ _ hgf]
      · intro g hg
        by_cases hgfs : g ∈ fs
        · exact hprops g hgfs
        · have hgf : g = f := by
            rcases List.mem_cons.mp hg with he | hm
            · exact he
            · exact absurd hm hgfs
          subst hgf
          refine ⟨t0, (Token.is_required t).2, ht0, ?_, hstabItems, hstabFix⟩
          rw [hout g hgfs, lookupA_updateA_self]
end Naming

namespace Naming

theorem parseGo_roundtrip (v e : PStr → PStr) (split : List PStr) :
    ∀ (fields : List PStr) (i : Nat) (tks : List (PStr × Token))
      (rv : List (PStr × Option PStr)),
      split.drop i = fields.map e →
      (∀ g ∈ fields, ∃ t, lookupA g tks = some t ∧
        (((Token.is_required t).1 = true ∧ e g = v g) ∨
         ((Token.is_required t).1 = false ∧
           Token.parse (Token.is_required t).2 (e g) = some (v g)))) →
      ∃ tks', ruleParseGo split fields i tks rv =
        (Except.ok (fields.foldl (fun m f => updateA f (some (v f)) m) rv), tks') := by
  intro fields
  induction fields with
  | nil =>
    intro i tks rv _ _
    exact ⟨tks, by simp [ruleParseGo]⟩
  | cons f fs ih =>
    intro i tks rv hdrop hprops
    have hfmem : f ∈ f :: fs := List.mem_cons_self f fs
    rw [List.map_cons] at hdrop
    have hget : split.get? i = some (e f) := get?_of_drop split i _ _ hdrop
    have hdrop1 : split.drop (i + 1) = fs.map e := drop_succ_of_drop split i _ _ hdrop
    obtain ⟨t, hlt, hcase⟩ := hprops f hfmem
    have hpropsRest : ∀ g ∈ fs, ∃ u,
        lookupA g (updateA f (Token.is_required t).2 tks) = some u ∧
        (((Token.is_required u).1 = true ∧ e g = v g) ∨
         ((Token.is_required u).1 = false ∧
           Token.parse (Token.is_required u).2 (e g) = some (v g))) := by
      intro g hg
      by_cases hgf : g = f
      · subst hgf
        refine ⟨(Token.is_required t).2, lookupA_updateA_self _ _ _, ?_⟩
        rcases hcase with ⟨htr, hef⟩ | ⟨hfa, hpar⟩
        · left
          refine ⟨?_, hef⟩
          rw [is_required_fix]
          exact htr
        · right
          constructor
          · rw [is_required_fix]
            exact hfa
          · rw [is_required_fix]
            exact hpar
      · obtain ⟨u, hu, hc⟩ := hprops g (List.mem_cons_of_mem f hg)
        exact ⟨u, by rw [lookupA_updateA_ne _ _ hgf]; exact hu, hc⟩
    rcases hcase with ⟨hreq, hef⟩ | ⟨hreq, hpar⟩
    · have hstep : ruleParseGo split (f :: fs) i tks rv =
          ruleParseGo split fs (i + 1) (updateA f (Token.is_required t).2 tks)
            (updateA f (some (e f)) rv) := by
        simp only [ruleParseGo, hget, hlt, hreq, if_true]
      obtain ⟨tks', heq⟩ := ih (i + 1) (updateA f (Token.is_required t).2 tks)
        (updateA f (some (e f)) rv) hdrop1 hpropsRest
      refine ⟨tks', ?_⟩
      rw [hstep, heq, hef, List.foldl_cons]
    · have hstep : ruleParseGo split (f :: fs) i tks rv =
          ruleParseGo split fs (i + 1) (updateA f (Token.is_required t).2 tks)
            (updateA f (Token.parse (Token.is_required t).2 (e f)) rv) := by
        simp only [ruleParseGo, hget, hlt, hreq, Bool.false_eq_true, if_false]
      rw [hpar] at hstep
      obtain ⟨tks', heq⟩ := ih (i + 1) (updateA f (Token.is_required t).2 tks)
        (updateA f (some (v f)) rv) hdrop1 hpropsRest
      refine ⟨tks', ?_⟩
      rw [hstep, heq, List.foldl_cons]
end Naming

namespace Naming

/-- C1 (amended): with an active rule whose fields are non-empty, have
plain format names (non-empty, not all digits, free of the `str.format`
field metacharacters), and are each valid for `v` — required fields get
delimiter-free free-form values, optional fields get keys whose emitted
value is delimiter-free, the item mapping being injective — the
registry-level `parse` of the registry-level `solve` of the values returns
the mapping equal to the values: the dict built from the assignment, each
recovered value wrapped in `some` (required fields verbatim, optional
fields as their symbolic key).  Field names may repeat; the `foldl` below
is exactly how Python builds the dict, so for duplicate-free fields it is
`fields.map (fun f => (f, some (v f)))`. -/
theorem c1_parse_solve_roundtrip (s : Registry) (an : PStr) (r : Rule) (v : PStr → PStr)
    (h1 : lookupA (pstr "_active") s.rules = some (RVal.pstrv an))
    (h2 : lookupA an s.rules = some (RVal.prule r))
    (h3 : r.fieldsR ≠ [])
    (hname : ∀ f ∈ r.fieldsR, plainFieldName f = true)
    (h5 : ∀ f ∈ r.fieldsR, fieldOKv s.tokens v f = true) :
    ∃ out s',
      solve s [] (r.fieldsR.map (fun f => (f, some (v f)))) = (Except.ok out, s') ∧
      (parse s' out).1
        = Except.ok (r.fieldsR.foldl (fun m f => updateA f (some (v f)) m) []) := by
  have hact : active_rule s = Except.ok (some (RVal.prule r)) := by
    unfold active_rule
    rw [h1]
    simp [rulesGet, h2]
  have hkw : ∀ g ∈ r.fieldsR,
      lookupA g (r.fieldsR.map (fun f => (f, some (v f)))) = some (some (v g)) :=
    fun g hg => lookupA_map_self (fun f => some (v f)) r.fieldsR g hg
  have hsame0 : ∀ g ∈ r.fieldsR, ∃ t0 t, lookupA g s.tokens = some t0 ∧
      lookupA g s.tokens = some t ∧ t.itemsT = t0.itemsT ∧
      (Token.default t).1 = (Token.default t0).1 := by
    intro g hg
    have hok := h5 g hg
    cases h0 : lookupA g s.tokens with
    | none => unfold fieldOKv at hok; rw [h0] at hok; simp at hok
    | some t => exact ⟨t, t, rfl, rfl, rfl, rfl⟩
  obtain ⟨tks', heq, hout, hprops⟩ :=
    solveGo_roundtrip s.tokens v (r.fieldsR.map (fun f => (f, some (v f))))
      r.fieldsR 0 s.tokens [] hsame0 h5 hkw
  have hvalsLk : ∀ g ∈ r.fieldsR,
      lookupA g (r.fieldsR.foldl
        (fun m f => updateA f (some (emitF s.tokens v f)) m) [])
        = some (some (emitF s.tokens v g)) := by
    intro g hg
    rw [lookupA_foldl_updateA (fun f => some (emitF s.tokens v f)) r.fieldsR [] g]
    simp [hg]
  have hempty : r.fieldsR.isEmpty = false := by
    cases hf : r.fieldsR with
    | nil => exact absurd hf h3
    | cons a l => rfl
  have hfmt : fmtFields (r.fieldsR.foldl
      (fun m f => updateA f (some (emitF s.tokens v f)) m) []) r.fieldsR
      = Except.ok (r.fieldsR.map (emitF s.tokens v)) :=
    fmtFields_ok _ (emitF s.tokens v) r.fieldsR hname hvalsLk
  have hrs : Rule.solve r (r.fieldsR.foldl
      (fun m f => updateA f (some (emitF s.tokens v f)) m) [])
      = Except.ok (joinC (r.fieldsR.map (emitF s.tokens v))) := by
    unfold Rule.solve
    rw [hempty, hfmt]
    rfl
  have hsolve : solve s [] (r.fieldsR.map (fun f => (f, some (v f))))
      = (Except.ok (joinC (r.fieldsR.map (emitF s.tokens v))),
         { s with tokens := tks' }) := by
    unfold solve
    rw [hact]
    simp only [heq, hrs]
  refine ⟨joinC (r.fieldsR.map (emitF s.tokens v)), { s with tokens := tks' }, hsolve, ?_⟩
  have hact' : active_rule { s with tokens := tks' } = Except.ok (some (RVal.prule r)) := by
    unfold active_rule
    rw [show ({ s with tokens := tks' } : Registry).rules = s.rules from rfl, h1]
    simp [rulesGet, h2]
  have hmapne : r.fieldsR.map (emitF s.tokens v) ≠ [] := by
    cases hf : r.fieldsR with
    | nil => exact absurd hf h3
    | cons a l => simp
  have hmapfree : ∀ p ∈ r.fieldsR.map (emitF s.tokens v), '_' ∉ p := by
    intro p hp
    obtain ⟨g, hg, he⟩ := List.mem_map.mp hp
    rw [← he]
    exact emitF_free (h5 g hg)
  have hsplit : splitC (joinC (r.fieldsR.map (emitF s.tokens v)))
      = r.fieldsR.map (emitF s.tokens v) :=
    splitC_joinC _ hmapne hmapfree
  have hpprops : ∀ g ∈ r.fieldsR, ∃ u, lookupA g tks' = some u ∧
      (((Token.is_required u).1 = true ∧ emitF s.tokens v g = v g) ∨
       ((Token.is_required u).1 = false ∧
         Token.parse (Token.is_required u).2 (emitF s.tokens v g) = some (v g))) := by
    intro g hg
    obtain ⟨t0, t', ht0, ht', hitems, hfix⟩ := hprops g hg
    refine ⟨t', ht', ?_⟩
    cases hreq : (Token.is_required t0).1 with
    | true =>
      left
      refine ⟨by rw [hfix, hreq], (fieldOKv_required ht0 hreq (h5 g hg)).2⟩
    | false =>
      right
      obtain ⟨w, hlw, _, hdist, hemit⟩ := fieldOKv_optional ht0 hreq (h5 g hg)
      refine ⟨by rw [hfix, hreq], ?_⟩
      rw [hemit]
      have hsnd : (Token.is_required t').2 = t' := by rw [hfix]
      rw [hsnd]
      unfold Token.parse
      rw [hitems, find?_items t0.itemsT (v g) w hlw hdist]
      rfl
  obtain ⟨tks'', heq2⟩ :=
    parseGo_roundtrip v (emitF s.tokens v) (splitC (joinC (r.fieldsR.map (emitF s.tokens v))))
      r.fieldsR 0 tks' [] (by rw [hsplit]; rfl) hpprops
  have hparse1 : (parse { s with tokens := tks' }
        (joinC (r.fieldsR.map (emitF s.tokens v)))).1
      = (ruleParseGo (splitC (joinC (r.fieldsR.map (emitF s.tokens v))))
          r.fieldsR 0 tks' []).1 := by
    unfold parse
    rw [hact']
    rfl
  rw [hparse1, heq2]
end Naming

namespace Naming

theorem active_rule_eq (s : Registry) (an : PStr) (r : Rule)
    (h1 : lookupA (pstr "_active") s.rules = some (RVal.pstrv an))
    (h2 : lookupA an s.rules = some (RVal.prule r)) :
    active_rule s = Except.ok (some (RVal.prule r)) := by
  unfold active_rule
  rw [h1]
  simp [rulesGet, h2]

theorem parse_fst_eq (s : Registry) (r : Rule) (name : PStr)
    (hact : active_rule s = Except.ok (some (RVal.prule r))) :
    (parse s name).1 = (ruleParseGo (splitC name) r.fieldsR 0 s.tokens []).1 := by
  unfold parse
  rw [hact]
  rfl

theorem parseGo_short (split : List PStr) :
    ∀ (fields : List PStr) (i : Nat) (tks : List (PStr × Token))
      (rv : List (PStr × Option PStr)),
      (∀ f ∈ fields, (lookupA f tks).isSome = true) →
      i ≤ split.length → split.length < i + fields.length →
      (ruleParseGo split fields i tks rv).1 = Except.error PyErr.indexError := by
  intro fields
  induction fields with
  | nil =>
    intro i tks rv _ hle hlt
    exact absurd hle (by simp at hlt; omega)
  | cons f fs ih =>
    intro i tks rv htok hle hlt
    by_cases hi : i < split.length
    · obtain ⟨piece, hget⟩ : ∃ p, split.get? i = some p := by
        rw [List.get?_eq_get hi]
        exact ⟨_, rfl⟩
      obtain ⟨t, ht⟩ := Option.isSome_iff_exists.mp (htok f (List.mem_cons_self f fs))
      have htokRest : ∀ g ∈ fs,
          (lookupA g (updateA f (Token.is_required t).2 tks)).isSome = true :=
        fun g hg => isSome_lookupA_updateA _ _ (htok g (List.mem_cons_of_mem f hg))
      have hlen : split.length < (i + 1) + fs.length := by
        simp only [List.length_cons] at hlt
        omega
      cases hreq : (Token.is_required t).1 with
      | true =>
        have hstep : ruleParseGo split (f :: fs) i tks rv =
            ruleParseGo split fs (i + 1) (updateA f (Token.is_required t).2 tks)
              (updateA f (some piece) rv) := by
          simp only [ruleParseGo, hget, ht, hreq, if_true]
        rw [hstep]
        exact ih (i + 1) _ _ htokRest (by omega) hlen
      | false =>
        have hstep : ruleParseGo split (f :: fs) i tks rv =
            ruleParseGo split fs (i + 1) (updateA f (Token.is_required t).2 tks)
              (updateA f (Token.parse (Token.is_required t).2 piece) rv) := by
          simp only [ruleParseGo, hget, ht, hreq, Bool.false_eq_true, if_false]
        rw [hstep]
        exact ih (i + 1) _ _ htokRest (by omega) hlen
    · have hget : split.get? i = none := List.get?_eq_none.mpr (Nat.le_of_not_lt hi)
      simp only [ruleParseGo, hget]

theorem parseGo_ok_of_long (split : List PStr) :
    ∀ (fields : List PStr) (i : Nat) (tks : List (PStr × Token))
      (rv : List (PStr × Option PStr)),
      (∀ f ∈ fields, (lookupA f tks).isSome = true) →
      i + fields.length ≤ split.length →
      ∃ out tks', ruleParseGo split fields i tks rv = (Except.ok out, tks') := by
  intro fields
  induction fields with
  | nil =>
    intro i tks rv _ _
    exact ⟨rv, tks, rfl⟩
  | cons f fs ih =>
    intro i tks rv htok hle
    have hi : i < split.length := by
      simp only [List.length_cons] at hle
      omega
    obtain ⟨piece, hget⟩ : ∃ p, split.get? i = some p := by
      rw [List.get?_eq_get hi]
      exact ⟨_, rfl⟩
    obtain ⟨t, ht⟩ := Option.isSome_iff_exists.mp (htok f (List.mem_cons_self f fs))
    have htokRest : ∀ g ∈ fs,
        (lookupA g (updateA f (Token.is_required t).2 tks)).isSome = true :=
      fun g hg => isSome_lookupA_updateA _ _ (htok g (List.mem_cons_of_mem f hg))
    have hlen : (i + 1) + fs.length ≤ split.length := by
      simp only [List.length_cons] at hle
      omega
    cases hreq : (Token.is_required t).1 with
    | true =>
      have hstep : ruleParseGo split (f :: fs) i tks rv =
          ruleParseGo split fs (i + 1) (updateA f (Token.is_required t).2 tks)
            (updateA f (some piece) rv) := by
        simp only [ruleParseGo, hget, ht, hreq, if_true]
      rw [hstep]
      exact ih (i + 1) _ _ htokRest hlen
    | false =>
      have hstep : ruleParseGo split (f :: fs) i tks rv =
          ruleParseGo split fs (i + 1) (updateA f (Token.is_required t).2 tks)
            (updateA f (Token.parse (Token.is_required t).2 piece) rv) := by
        simp only [ruleParseGo, hget, ht, hreq, Bool.false_eq_true, if_false]
      rw [hstep]
      exact ih (i + 1) _ _ htokRest hlen

end Naming

namespace Naming

/-- C1 counterexample: with the active one-field rule `["side"]` whose token
has the injective item mapping `{left: "a_b"}`, the value assignment
`{side: "left"}` satisfies every premise of the claim (key present,
injective items), yet `parse(solve(values))` yields `{side: None}`, not
`values` — the emitted value `"a_b"` contains the delimiter, so the claim
as stated is false. -/
theorem c1_roundtrip_cex :
    lookupA (pstr "_active") c1CexS.rules = some (RVal.pstrv (pstr "r")) ∧
    lookupA (pstr "r") c1CexS.rules
      = some (RVal.prule ⟨pstr "r", [pstr "side"]⟩) ∧
    lookupA (pstr "side") c1CexS.tokens
      = some (⟨pstr "side", none, [(pstr "left", pstr "a_b")]⟩ : Token) ∧
    distinctVals [(pstr "left", pstr "a_b")] = true ∧
    (Token.is_required (⟨pstr "side", none, [(pstr "left", pstr "a_b")]⟩ : Token)).1
      = false ∧
    (solve c1CexS [] [(pstr "side", some (pstr "left"))]).1 = Except.ok (pstr "a_b") ∧
    (parse (solve c1CexS [] [(pstr "side", some (pstr "left"))]).2 (pstr "a_b")).1
      = Except.ok [(pstr "side", (none : Option PStr))] ∧
    (Except.ok [(pstr "side", (none : Option PStr))] :
        Except PyErr (List (PStr × Option PStr)))
      ≠ Except.ok [(pstr "side", some (pstr "left"))] := by
  decide

/-- C1 witness: the amended round-trip theorem applied to a concrete
registry (required `description`, optional `side` with item `left: "L"`)
and the assignment `{description: "foo", side: "left"}`. -/
theorem c1_roundtrip_witness :
    ∃ out s',
      solve c1WitS []
          ((⟨pstr "r", [pstr "description", pstr "side"]⟩ : Rule).fieldsR.map
            (fun f => (f, some (c1WitV f)))) = (Except.ok out, s') ∧
      (parse s' out).1 = Except.ok
        ((⟨pstr "r", [pstr "description", pstr "side"]⟩ : Rule).fieldsR.map
          (fun f => (f, some (c1WitV f)))) :=
  c1_parse_solve_roundtrip c1WitS (pstr "r")
    ⟨pstr "r", [pstr "description", pstr "side"]⟩ c1WitV
    (by decide) (by decide) (by decide) (by decide) (by decide)

/-- C2: the concrete scenario of the specification.  With tokens
`description` (required), `side {left: L, right: R, middle: M, default M}`
and `type {animation: anim, control: ctrl, default ctrl}` and active rule
`["description", "side", "type"]`: `solve(description="foo", side="left",
type="animation")` is `"foo_L_anim"`, `solve(description="foo")` is
`"foo_M_ctrl"`, and `parse("foo_M_ctrl")` recovers `{description: "foo",
side: "middle", type: "control"}`. -/
theorem c2_concrete_scenario :
    (solve c2S []
        [(pstr "description", some (pstr "foo")), (pstr "side", some (pstr "left")),
         (pstr "type", some (pstr "animation"))]).1 = Except.ok (pstr "foo_L_anim") ∧
    (solve c2S [] [(pstr "description", some (pstr "foo"))]).1
      = Except.ok (pstr "foo_M_ctrl") ∧
    (parse c2S (pstr "foo_M_ctrl")).1
      = Except.ok [(pstr "description", some (pstr "foo")),
                   (pstr "side", some (pstr "middle")),
                   (pstr "type", some (pstr "control"))] := by
  decide

/-- C3 counterexample: with the active one-field rule `["description"]`,
parsing `"a_b"` — whose split has 2 pieces, more than the 1 field — does
not fail at all: it silently ignores the extra piece and returns the
mapping `{description: "a"}`, contradicting the claim that `parse` fails
explicitly whenever the piece count differs from the field count. -/
theorem c3_malformed_cex :
    lookupA (pstr "_active") c3CexS.rules = some (RVal.pstrv (pstr "r")) ∧
    lookupA (pstr "r") c3CexS.rules
      = some (RVal.prule ⟨pstr "r", [pstr "description"]⟩) ∧
    (splitC (pstr "a_b")).length = 2 ∧
    (⟨pstr "r", [pstr "description"]⟩ : Rule).fieldsR.length = 1 ∧
    (parse c3CexS (pstr "a_b")).1
      = Except.ok [(pstr "description", some (pstr "a"))] := by
  decide

/-- C3 (amended): with an active rule of n fields whose tokens are all
registered, `parse` of a string whose `_`-split yields fewer than n pieces
fails explicitly (an IndexError, not a typed MalformedName); `parse` of a
string whose split yields more than n pieces does not fail — the extra
pieces are silently ignored and a mapping is produced. -/
theorem c3_piece_count (s : Registry) (an : PStr) (r : Rule) (name : PStr)
    (h1 : lookupA (pstr "_active") s.rules = some (RVal.pstrv an))
    (h2 : lookupA an s.rules = some (RVal.prule r))
    (htok : ∀ f ∈ r.fieldsR, (lookupA f s.tokens).isSome = true) :
    ((splitC name).length < r.fieldsR.length →
      (parse s name).1 = Except.error PyErr.indexError) ∧
    (r.fieldsR.length < (splitC name).length →
      ∃ out, (parse s name).1 = Except.ok out) := by
  have hact := active_rule_eq s an r h1 h2
  have hp := parse_fst_eq s r name hact
  constructor
  · intro hlt
    rw [hp]
    exact parseGo_short (splitC name) r.fieldsR 0 s.tokens [] htok
      (Nat.zero_le _) (by omega)
  · intro hgt
    rw [hp]
    obtain ⟨out, tks', heq⟩ :=
      parseGo_ok_of_long (splitC name) r.fieldsR 0 s.tokens [] htok (by omega)
    exact ⟨out, by rw [heq]⟩

/-- C3 witness: the amended theorem at a two-field rule, applied to a
one-piece input (fails with IndexError) and a three-piece input
(succeeds, ignoring the extra piece). -/
theorem c3_piece_count_witness :
    (parse c3WitS (pstr "foo")).1 = Except.error PyErr.indexError ∧
    (∃ out, (parse c3WitS (pstr "ab_cd_ef")).1 = Except.ok out) := by
  constructor
  · exact (c3_piece_count c3WitS (pstr "r")
      ⟨pstr "r", [pstr "description", pstr "side"]⟩ (pstr "foo")
      (by decide) (by decide) (by decide)).1 (by decide)
  · exact (c3_piece_count c3WitS (pstr "r")
      ⟨pstr "r", [pstr "description", pstr "side"]⟩ (pstr "ab_cd_ef")
      (by decide) (by decide) (by decide)).2 (by decide)

/-- C4 counterexample: `Token.solve` on a key absent from the items does
not fail with any KeyNotFound error — `self._items.get(name)` is total and
simply returns None (the token is also left unchanged).  The claim's
third part ("fails with a KeyNotFound failure") is therefore false. -/
theorem c4_solve_cex :
    lookupA (pstr "bogus") c4CexT.itemsT = none ∧
    Token.solve c4CexT (some (pstr "bogus")) = ((none : Option PStr), c4CexT) := by
  decide

/-- C4 (amended): `Token.solve(None)` returns the computed default;
`Token.solve(k)` returns `items[k]` when `k` is present; and for an absent
key it returns None like `dict.get` — no exception is raised (the
embedding of `solve` is total). -/
theorem c4_token_solve (t : Token) :
    Token.solve t none = Token.default t ∧
    (∀ k w, lookupA k t.itemsT = some w → Token.solve t (some k) = (some w, t)) ∧
    (∀ k, lookupA k t.itemsT = none → Token.solve t (some k) = (none, t)) := by
  refine ⟨rfl, fun k w h => ?_, fun k h => ?_⟩
  · simp [Token.solve, h]
  · simp [Token.solve, h]

/-- C4 witness: the amended theorem at a concrete token, for a present key
and for an absent key. -/
theorem c4_token_solve_witness :
    Token.solve c4CexT none = Token.default c4CexT ∧
    Token.solve c4CexT (some (pstr "left")) = (some (pstr "L"), c4CexT) ∧
    Token.solve c4CexT (some (pstr "zz")) = ((none : Option PStr), c4CexT) :=
  ⟨(c4_token_solve c4CexT).1,
   (c4_token_solve c4CexT).2.1 (pstr "left") (pstr "L") (by decide),
   (c4_token_solve c4CexT).2.2 (pstr "zz") (by decide)⟩

/-- C5: `load_rule`/`load_token` return False and leave the registry
untouched for a missing file or unparseable text, and on a matching
envelope they add the object under its stored name; but on a well-formed
envelope of the *other* kind, `from_data` returns None and the unchecked
`rule.name()` / `token.name()` raises AttributeError instead of returning
False (nothing is added in that case either). -/
theorem c5_load_behaviour :
    (∀ s, load_rule s FileContent.missing = (Except.ok false, s)) ∧
    (∀ s, load_rule s FileContent.unparseable = (Except.ok false, s)) ∧
    (∀ s (t : Token), load_rule s (FileContent.parsed (Token.data t))
      = (Except.error PyErr.attributeError, s)) ∧
    (∀ s (r : Rule), load_rule s (FileContent.parsed (Rule.data r))
      = (Except.ok true, { s with rules := updateA r.nameR (RVal.prule r) s.rules })) ∧
    (∀ s, load_token s FileContent.missing = (Except.ok false, s)) ∧
    (∀ s, load_token s FileContent.unparseable = (Except.ok false, s)) ∧
    (∀ s (r : Rule), load_token s (FileContent.parsed (Rule.data r))
      = (Except.error PyErr.attributeError, s)) ∧
    (∀ s (t : Token), load_token s (FileContent.parsed (Token.data t))
      = (Except.ok true, { s with tokens := updateA t.nameT t s.tokens })) := by
  refine ⟨fun s => rfl, fun s => rfl, fun s t => ?_, fun s r => ?_,
          fun s => rfl, fun s => rfl, fun s r => ?_, fun s t => ?_⟩
  · simp only [load_rule, Rule.from_data, Token.data]
    rw [if_neg (by decide)]
  · simp only [load_rule, Rule.from_data, Rule.data]
    rw [if_pos (by decide)]
  · simp only [load_token, Token.from_data, Rule.data]
    rw [if_neg (by decide)]
  · simp only [load_token, Token.from_data, Token.data]
    rw [if_pos (by decide)]

/-- C6: the type-guard of `from_data` — reconstructing a Rule from a
serialized Token, or a Token from a serialized Rule, yields nothing. -/
theorem c6_from_data_type_guard :
    (∀ t : Token, Rule.from_data (Token.data t) = none) ∧
    (∀ r : Rule, Token.from_data (Rule.data r) = none) := by
  constructor
  · intro t
    simp only [Rule.from_data, Token.data]
    rw [if_neg (by decide)]
  · intro r
    simp only [Token.from_data, Rule.data]
    rw [if_neg (by decide)]

end Naming

namespace Naming

/-- C9: for a token with no explicit default and a non-empty item mapping,
`default()` caches the first item's value into `_default` and returns it;
`is_required()` and `solve(None)` go through `default()` and propagate the
same mutation; the mutated default shows up in every later `data()`
serialization (the payload carries `some v` and differs from the original);
items added afterwards can never become the effective default; and a
registry-level `parse` whose active rule consults the token stores the
mutated token back into the registry. -/
theorem c9_default_mutation (t : Token) (k v : PStr) (rest : List (PStr × PStr))
    (h1 : t.defaultT = none) (h2 : t.itemsT = (k, v) :: rest) :
    Token.default t = (some v, { t with defaultT := some v }) ∧
    Token.is_required t = (false, { t with defaultT := some v }) ∧
    Token.solve t none = (some v, { t with defaultT := some v }) ∧
    Token.data { t with defaultT := some v }
      = ⟨pstr "Token", some (pstr "1.0"), Payload.tok t.nameT (some v) t.itemsT⟩ ∧
    Token.data { t with defaultT := some v } ≠ Token.data t ∧
    (∀ k2 v2, Token.default (Token.add_item { t with defaultT := some v } k2 v2)
      = (some v, Token.add_item { t with defaultT := some v } k2 v2)) ∧
    (parse ⟨[(pstr "side", t)],
        [(pstr "_active", RVal.pstrv (pstr "r")),
         (pstr "r", RVal.prule ⟨pstr "r", [pstr "side"]⟩)]⟩ (pstr "x")).2.tokens
      = [(pstr "side", { t with defaultT := some v })] := by
  obtain ⟨n, d, it⟩ := t
  have hd : d = none := h1
  have hit : it = (k, v) :: rest := h2
  subst hd
  subst hit
  refine ⟨rfl, rfl, rfl, rfl, ?_, fun k2 v2 => rfl, rfl⟩
  intro h
  simp [Token.data] at h

/-- C9 witness: the mutation theorem at a concrete token with two items. -/
theorem c9_default_mutation_witness :
    Token.default c9WitT = (some (pstr "L"), { c9WitT with defaultT := some (pstr "L") }) ∧
    Token.is_required c9WitT
      = (false, { c9WitT with defaultT := some (pstr "L") }) ∧
    Token.solve c9WitT none
      = (some (pstr "L"), { c9WitT with defaultT := some (pstr "L") }) ∧
    Token.data { c9WitT with defaultT := some (pstr "L") }
      = ⟨pstr "Token", some (pstr "1.0"),
         Payload.tok c9WitT.nameT (some (pstr "L")) c9WitT.itemsT⟩ ∧
    Token.data { c9WitT with defaultT := some (pstr "L") } ≠ Token.data c9WitT ∧
    (∀ k2 v2, Token.default (Token.add_item { c9WitT with defaultT := some (pstr "L") } k2 v2)
      = (some (pstr "L"),
         Token.add_item { c9WitT with defaultT := some (pstr "L") } k2 v2)) ∧
    (parse ⟨[(pstr "side", c9WitT)],
        [(pstr "_active", RVal.pstrv (pstr "r")),
         (pstr "r", RVal.prule ⟨pstr "r", [pstr "side"]⟩)]⟩ (pstr "x")).2.tokens
      = [(pstr "side", { c9WitT with defaultT := some (pstr "L") })] :=
  c9_default_mutation c9WitT (pstr "left") (pstr "L") [(pstr "right", pstr "R")]
    (by decide) (by decide)

end Naming

namespace Naming

theorem solveGo_default_subst (f k dv : PStr) (args : List PStr)
    (kwds : List (PStr × Option PStr)) (hkf : lookupA f kwds = none) :
    ∀ (fields : List PStr) (i : Nat) (tks : List (PStr × Token))
      (vals : List (PStr × Option PStr)),
      (∀ u, lookupA f tks = some u →
        lookupA k u.itemsT = some dv ∧ (Token.default u).1 = some dv) →
      solveGo args kwds fields i tks vals
        = solveGo args (updateA f (some k) kwds) fields i tks vals := by
  intro fields
  induction fields with
  | nil => intro i tks vals _; rfl
  | cons g fs ih =>
    intro i tks vals hInv
    by_cases hgf : g = f
    · subst hgf
      cases hu : lookupA g tks with
      | none => simp only [solveGo, hu]
      | some u =>
        obtain ⟨hku, hdu⟩ := hInv u hu
        have hreq : (Token.is_required u).1 = false := by
          simp [Token.is_required, hdu]
        have hq1 : Token.solve (Token.is_required u).2 ((lookupA g kwds).join)
            = (some dv, (Token.is_required u).2) := by
          rw [hkf]
          show Token.default (Token.is_required u).2 = _
          rw [default_of_is_required, hdu]
        have hq2 : Token.solve (Token.is_required u).2
              ((lookupA g (updateA g (some k) kwds)).join)
            = (some dv, (Token.is_required u).2) := by
          rw [lookupA_updateA_self]
          show (lookupA k (Token.is_required u).2.itemsT, (Token.is_required u).2) = _
          rw [is_required_snd_items, hku]
        have hL : solveGo args kwds (g :: fs) i tks vals
            = solveGo args kwds fs i
                (updateA g (Token.is_required u).2 (updateA g (Token.is_required u).2 tks))
                (updateA g (some dv) vals) := by
          simp only [solveGo, hu, hreq, Bool.false_eq_true, if_false, hq1]
        have hR : solveGo args (updateA g (some k) kwds) (g :: fs) i tks vals
            = solveGo args (updateA g (some k) kwds) fs i
                (updateA g (Token.is_required u).2 (updateA g (Token.is_required u).2 tks))
                (updateA g (some dv) vals) := by
          simp only [solveGo, hu, hreq, Bool.false_eq_true, if_false, hq2]
        rw [hL, hR]
        apply ih
        intro w hw
        rw [lookupA_updateA_self] at hw
        have hw2 : (Token.is_required u).2 = w := by injection hw
        subst hw2
        constructor
        · rw [is_required_snd_items]
          exact hku
        · rw [default_of_is_required]
          exact hdu
    · have hkg : lookupA g (updateA f (some k) kwds) = lookupA g kwds :=
        lookupA_updateA_ne _ _ hgf
      have hInv' : ∀ (x : Token),
          ∀ u, lookupA f (updateA g x tks) = some u →
            lookupA k u.itemsT = some dv ∧ (Token.default u).1 = some dv := by
        intro x u hu
        rw [lookupA_updateA_ne _ _ (fun he => hgf he.symm)] at hu
        exact hInv u hu
      cases hu : lookupA g tks with
      | none => simp only [solveGo, hu]
      | some t =>
        cases hreq : (Token.is_required t).1 with
        | true =>
          cases hkg2 : lookupA g kwds with
          | some ov =>
            cases ov with
            | some w =>
              have hL : solveGo args kwds (g :: fs) i tks vals
                  = solveGo args kwds fs i (updateA g (Token.is_required t).2 tks)
                      (updateA g (some w) vals) := by
                simp only [solveGo, hu, hreq, if_true, hkg2]
              have hR : solveGo args (updateA f (some k) kwds) (g :: fs) i tks vals
                  = solveGo args (updateA f (some k) kwds) fs i
                      (updateA g (Token.is_required t).2 tks)
                      (updateA g (some w) vals) := by
                simp only [solveGo, hu, hreq, if_true, hkg, hkg2]
              rw [hL, hR]
              exact ih i _ _ (hInv' _)
            | none =>
              cases ha : args.get? i with
              | none =>
                simp only [solveGo, hu, hreq, if_true, hkg, hkg2, ha]
              | some a =>
                have hL : solveGo args kwds (g :: fs) i tks vals
                    = solveGo args kwds fs (i + 1) (updateA g (Token.is_required t).2 tks)
                        (updateA g (some a) vals) := by
                  simp only [solveGo, hu, hreq, if_true, hkg2, ha]
                have hR : solveGo args (updateA f (some k) kwds) (g :: fs) i tks vals
                    = solveGo args (updateA f (some k) kwds) fs (i + 1)
                        (updateA g (Token.is_required t).2 tks)
                        (updateA g (some a) vals) := by
                  simp only [solveGo, hu, hreq, if_true, hkg, hkg2, ha]
                rw [hL, hR]
                exact ih (i + 1) _ _ (hInv' _)
          | none =>
            cases ha : args.get? i with
            | none =>
              simp only [solveGo, hu, hreq, if_true, hkg, hkg2, ha]
            | some a =>
              have hL : solveGo args kwds (g :: fs) i tks vals
                  = solveGo args kwds fs (i + 1) (updateA g (Token.is_required t).2 tks)
                      (updateA g (some a) vals) := by
                simp only [solveGo, hu, hreq, if_true, hkg2, ha]
              have hR : solveGo args (updateA f (some k) kwds) (g :: fs) i tks vals
                  = solveGo args (updateA f (some k) kwds) fs (i + 1)
                      (updateA g (Token.is_required t).2 tks)
                      (updateA g (some a) vals) := by
                simp only [solveGo, hu, hreq, if_true, hkg, hkg2, ha]
              rw [hL, hR]
              exact ih (i + 1) _ _ (hInv' _)
        | false =>
          have hL : solveGo args kwds (g :: fs) i tks vals
              = solveGo args kwds fs i
                  (updateA g (Token.solve (Token.is_required t).2
                    ((lookupA g kwds).join)).2 (updateA g (Token.is_required t).2 tks))
                  (updateA g (Token.solve (Token.is_required t).2
                    ((lookupA g kwds).join)).1 vals) := by
            simp only [solveGo, hu, hreq, Bool.false_eq_true, if_false]
          have hR : solveGo args (updateA f (some k) kwds) (g :: fs) i tks vals
              = solveGo args (updateA f (some k) kwds) fs i
                  (updateA g (Token.solve (Token.is_required t).2
                    ((lookupA g kwds).join)).2 (updateA g (Token.is_required t).2 tks))
                  (updateA g (Token.solve (Token.is_required t).2
                    ((lookupA g kwds).join)).1 vals) := by
            simp only [solveGo, hu, hreq, Bool.false_eq_true, if_false, hkg]
          rw [hL, hR]
          apply ih
          intro u hu2
          rw [lookupA_updateA_ne _ _ (fun he => hgf he.symm),
            lookupA_updateA_ne _ _ (fun he => hgf he.symm)] at hu2
          exact hInv u hu2

theorem solve_eq_of_active (s : Registry) (r : Rule) (args : List PStr)
    (kwds : List (PStr × Option PStr))
    (hact : active_rule s = Except.ok (some (RVal.prule r))) :
    solve s args kwds =
      ((match (solveGo args kwds r.fieldsR 0 s.tokens []).1 with
        | Except.error e => Except.error e
        | Except.ok vals => Rule.solve r vals),
       { s with tokens := (solveGo args kwds r.fieldsR 0 s.tokens []).2 }) := by
  unfold solve
  rw [hact]

/-- C7: for an active rule with an optional field `f` whose token has a
symbolic key `k` mapping to the token's effective (computed) default value,
the registry-level `solve` with `f` omitted from the keyword arguments
returns exactly the same result — same string and same final registry —
as `solve` with `f` explicitly set to `k`, all other arguments equal. -/
theorem c7_default_substitution (s : Registry) (an : PStr) (r : Rule)
    (f k dv : PStr) (t : Token) (args : List PStr) (kwds : List (PStr × Option PStr))
    (h1 : lookupA (pstr "_active") s.rules = some (RVal.pstrv an))
    (h2 : lookupA an s.rules = some (RVal.prule r))
    (hf : f ∈ r.fieldsR)
    (ht : lookupA f s.tokens = some t)
    (hk : lookupA k t.itemsT = some dv)
    (hd : (Token.default t).1 = some dv)
    (homit : lookupA f kwds = none) :
    solve s args kwds = solve s args (updateA f (some k) kwds) := by
  have hact := active_rule_eq s an r h1 h2
  have heq := solveGo_default_subst f k dv args kwds homit r.fieldsR 0 s.tokens []
    (fun u hu => by
      rw [ht] at hu
      have heqt : t = u := by injection hu
      subst heqt
      exact ⟨hk, hd⟩)
  rw [solve_eq_of_active s r args kwds hact,
    solve_eq_of_active s r args (updateA f (some k) kwds) hact, heq]

/-- C7 witness: `solve(description="foo")` and
`solve(description="foo", side="middle")` agree on the concrete registry
whose `side` token has default `"M"`, the emitted value of `"middle"`. -/
theorem c7_default_substitution_witness :
    solve c7WitS [] [(pstr "description", some (pstr "foo"))]
      = solve c7WitS []
          (updateA (pstr "side") (some (pstr "middle"))
            [(pstr "description", some (pstr "foo"))]) :=
  c7_default_substitution c7WitS (pstr "r") ⟨pstr "r", [pstr "description", pstr "side"]⟩
    (pstr "side") (pstr "middle") (pstr "M")
    ⟨pstr "side", some (pstr "M"), [(pstr "left", pstr "L"), (pstr "middle", pstr "M")]⟩
    [] [(pstr "description", some (pstr "foo"))]
    (by decide) (by decide) (by decide) (by decide) (by decide) (by decide) (by decide)

end Naming

namespace Naming

theorem hasRule_active_set_active (s : Registry) (n : PStr)
    (h : has_rule s (pstr "_active") = true) :
    has_rule (set_active_rule s n).2 (pstr "_active") = true := by
  unfold set_active_rule
  by_cases hh : has_rule s n = true
  · rw [if_pos hh]
    unfold has_rule
    rw [lookupA_updateA_self]
    rfl
  · rw [if_neg hh]
    exact h

theorem applyOp_hasRule_active (s : Registry) (op : Op)
    (hop : notRemoveActive op = true)
    (h : has_rule s (pstr "_active") = true) :
    has_rule (applyOp s op) (pstr "_active") = true := by
  cases op with
  | addTokenOp n kw => exact h
  | flushTokensOp => exact h
  | removeTokenOp n =>
    show has_rule (remove_token s n).2 _ = true
    unfold remove_token
    by_cases hh : has_token s n = true
    · rw [if_pos hh]; exact h
    · rw [if_neg hh]; exact h
  | loadTokenOp c =>
    cases c with
    | missing => exact h
    | unparseable => exact h
    | parsed d =>
      show has_rule (load_token s (FileContent.parsed d)).2 _ = true
      simp only [load_token]
      cases hfd : Token.from_data d with
      | none => exact h
      | some t => exact h
  | solveOp args kwds =>
    show has_rule (solve s args kwds).2 _ = true
    unfold has_rule
    rw [solve_rules_eq]
    exact h
  | parseOp n =>
    show has_rule (parse s n).2 _ = true
    unfold has_rule
    rw [parse_rules_eq]
    exact h
  | flushRulesOp => rfl
  | setActiveRuleOp n => exact hasRule_active_set_active s n h
  | removeRuleOp n =>
    have hne : n ≠ pstr "_active" := by
      simpa [notRemoveActive] using hop
    show has_rule (remove_rule s n).2 _ = true
    unfold remove_rule
    by_cases hh : has_rule s n = true
    · rw [if_pos hh]
      unfold has_rule
      rw [lookupA_eraseA, if_neg (fun he => hne he.symm)]
      exact h
    · rw [if_neg hh]
      exact h
  | addRuleOp n fs =>
    show has_rule (add_rule s n fs).2 _ = true
    simp only [add_rule]
    have h1 : has_rule { s with rules := updateA n (RVal.prule ⟨n, fs⟩) s.rules }
        (pstr "_active") = true := by
      unfold has_rule at h ⊢
      exact isSome_lookupA_updateA _ _ h
    cases har : active_rule { s with rules := updateA n (RVal.prule ⟨n, fs⟩) s.rules } with
    | error e => exact h1
    | ok o =>
      cases o with
      | none => exact hasRule_active_set_active _ n h1
      | some x => exact h1
  | loadRuleOp c =>
    cases c with
    | missing => exact h
    | unparseable => exact h
    | parsed d =>
      show has_rule (load_rule s (FileContent.parsed d)).2 _ = true
      simp only [load_rule]
      cases hfd : Rule.from_data d with
      | none => exact h
      | some r =>
        unfold has_rule at h ⊢
        exact isSome_lookupA_updateA _ _ h

theorem runOps_hasRule_active :
    ∀ (l : List Op) (s : Registry), has_rule s (pstr "_active") = true →
      (∀ op ∈ l, notRemoveActive op = true) →
      has_rule (runOps s l) (pstr "_active") = true := by
  intro l
  induction l with
  | nil => intro s h _; exact h
  | cons op rest ih =>
    intro s h hops
    exact ih (applyOp s op)
      (applyOp_hasRule_active s op (hops op (List.mem_cons_self op rest)) h)
      (fun o ho => hops o (List.mem_cons_of_mem op ho))

/-- C8 counterexample: the claim says the `"_active"` key invariant is
preserved by every registry operation, but `remove_rule("_active")` —
a legitimate call, since `has_rule("_active")` is true — deletes the
pointer key itself, after which `has_rule("_active")` is false. -/
theorem c8_active_key_cex :
    has_rule initState (pstr "_active") = true ∧
    has_rule (runOps initState [Op.removeRuleOp (pstr "_active")])
      (pstr "_active") = false := by
  decide

/-- C8 (amended): `has_rule("_active")` is true in the initial state and
after any `flush_rules()`, and it is preserved by every registry operation
except `remove_rule("_active")`, which deletes the pointer key; so in every
state reached without calling `remove_rule("_active")` the name
`"_active"` cannot be distinguished from a registered rule by `has_rule`. -/
theorem c8_active_key_invariant :
    has_rule initState (pstr "_active") = true ∧
    (∀ s, has_rule (applyOp s Op.flushRulesOp) (pstr "_active") = true) ∧
    (∀ l, (∀ op ∈ l, notRemoveActive op = true) →
      has_rule (runOps initState l) (pstr "_active") = true) := by
  refine ⟨by decide, fun s => rfl, fun l hl => ?_⟩
  exact runOps_hasRule_active l initState (by decide) hl

/-- C8 witness: the amended invariant along a concrete operation sequence
(add a rule, flush, set active). -/
theorem c8_active_key_witness :
    has_rule (runOps initState
      [Op.addRuleOp (pstr "x") [], Op.flushRulesOp, Op.setActiveRuleOp (pstr "x")])
      (pstr "_active") = true :=
  c8_active_key_invariant.2.2
    [Op.addRuleOp (pstr "x") [], Op.flushRulesOp, Op.setActiveRuleOp (pstr "x")]
    (by decide)

end Naming

namespace Naming

theorem rulesInvL_updateA_rule (rules : List (PStr × RVal)) (n : PStr) (rr : Rule)
    (hne : n ≠ pstr "_active") (h : rulesInvL rules) :
    rulesInvL (updateA n (RVal.prule rr) rules) := by
  obtain ⟨⟨w, hw, hc⟩, hall⟩ := h
  refine ⟨⟨w, ?_, hc⟩, ?_⟩
  · rw [lookupA_updateA_ne _ _ (fun he => hne he.symm)]
    exact hw
  · intro k w2 hk hlk
    rw [lookupA_updateA] at hlk
    by_cases hkn : k = n
    · rw [if_pos hkn] at hlk
      have hval : RVal.prule rr = w2 := by injection hlk
      exact ⟨rr, hval.symm⟩
    · rw [if_neg hkn] at hlk
      exact hall k w2 hk hlk

theorem rulesInvL_set_ptr (rules : List (PStr × RVal)) (n : PStr)
    (hne : n ≠ pstr "_active") (h : rulesInvL rules) :
    rulesInvL (updateA (pstr "_active") (RVal.pstrv n) rules) := by
  obtain ⟨_, hall⟩ := h
  refine ⟨⟨RVal.pstrv n, lookupA_updateA_self _ _ _, Or.inr ⟨n, rfl, hne⟩⟩, ?_⟩
  intro k w hk hlk
  rw [lookupA_updateA_ne _ _ hk] at hlk
  exact hall k w hk hlk

theorem rulesInv_init : rulesInvL initState.rules := by
  refine ⟨⟨RVal.pnone, by decide, Or.inl rfl⟩, ?_⟩
  intro k w hk hlk
  have hcond : ¬(pstr "_active" = k) := fun he => hk he.symm
  simp only [lookupA] at hlk
  rw [if_neg hcond] at hlk
  exact Option.noConfusion hlk

theorem active_rule_of_inv (s : Registry) (h : rulesInvL s.rules) :
    active_rule s = Except.ok none ∨
    ∃ nm rr, lookupA (pstr "_active") s.rules = some (RVal.pstrv nm) ∧
      lookupA nm s.rules = some (RVal.prule rr) ∧
      active_rule s = Except.ok (some (RVal.prule rr)) := by
  obtain ⟨⟨w, hw, hc⟩, hall⟩ := h
  rcases hc with rfl | ⟨nm, rfl, hnm⟩
  · left
    unfold active_rule
    rw [hw]
    rfl
  · cases h2 : lookupA nm s.rules with
    | none =>
      left
      unfold active_rule
      rw [hw]
      simp [rulesGet, h2]
    | some w2 =>
      obtain ⟨rr, rfl⟩ := hall nm w2 hnm h2
      right
      refine ⟨nm, rr, hw, h2, ?_⟩
      unfold active_rule
      rw [hw]
      simp [rulesGet, h2]

theorem applyOp_rulesInv (s : Registry) (op : Op)
    (hop : opAvoidsActive op = true) (h : rulesInvL s.rules) :
    rulesInvL (applyOp s op).rules := by
  cases op with
  | addTokenOp n kw => exact h
  | flushTokensOp => exact h
  | removeTokenOp n =>
    show rulesInvL (remove_token s n).2.rules
    unfold remove_token
    by_cases hh : has_token s n = true
    · rw [if_pos hh]; exact h
    · rw [if_neg hh]; exact h
  | loadTokenOp c =>
    cases c with
    | missing => exact h
    | unparseable => exact h
    | parsed d =>
      show rulesInvL (load_token s (FileContent.parsed d)).2.rules
      simp only [load_token]
      cases hfd : Token.from_data d with
      | none => exact h
      | some t => exact h
  | solveOp args kwds =>
    show rulesInvL (solve s args kwds).2.rules
    rw [solve_rules_eq]
    exact h
  | parseOp n =>
    show rulesInvL (parse s n).2.rules
    rw [parse_rules_eq]
    exact h
  | flushRulesOp =>
    refine ⟨⟨RVal.pnone, rfl, Or.inl rfl⟩, ?_⟩
    intro k w hk hlk
    have hcond : ¬(pstr "_active" = k) := fun he => hk he.symm
    simp only [lookupA] at hlk
    rw [if_neg hcond] at hlk
    exact Option.noConfusion hlk
  | setActiveRuleOp n =>
    have hne : n ≠ pstr "_active" := by simpa [opAvoidsActive] using hop
    show rulesInvL (set_active_rule s n).2.rules
    unfold set_active_rule
    by_cases hh : has_rule s n = true
    · rw [if_pos hh]
      exact rulesInvL_set_ptr s.rules n hne h
    · rw [if_neg hh]; exact h
  | removeRuleOp n =>
    have hne : n ≠ pstr "_active" := by simpa [opAvoidsActive] using hop
    show rulesInvL (remove_rule s n).2.rules
    unfold remove_rule
    by_cases hh : has_rule s n = true
    · rw [if_pos hh]
      obtain ⟨⟨w, hw, hc⟩, hall⟩ := h
      refine ⟨⟨w, ?_, hc⟩, ?_⟩
      · rw [lookupA_eraseA, if_neg (fun he => hne he.symm)]
        exact hw
      · intro k w2 hk hlk
        rw [lookupA_eraseA] at hlk
        by_cases hkn : k = n
        · rw [if_pos hkn] at hlk
          exact Option.noConfusion hlk
        · rw [if_neg hkn] at hlk
          exact hall k w2 hk hlk
    · rw [if_neg hh]; exact h
  | addRuleOp n fs =>
    have hne : n ≠ pstr "_active" := by simpa [opAvoidsActive] using hop
    show rulesInvL (add_rule s n fs).2.rules
    simp only [add_rule]
    have h1 : rulesInvL (updateA n (RVal.prule ⟨n, fs⟩) s.rules) :=
      rulesInvL_updateA_rule s.rules n ⟨n, fs⟩ hne h
    cases har : active_rule { s with rules := updateA n (RVal.prule ⟨n, fs⟩) s.rules } with
    | error e => exact h1
    | ok o =>
      cases o with
      | some x => exact h1
      | none =>
        show rulesInvL
          (set_active_rule { s with rules := updateA n (RVal.prule ⟨n, fs⟩) s.rules } n).2.rules
        unfold set_active_rule
        by_cases hh : has_rule { s with rules := updateA n (RVal.prule ⟨n, fs⟩) s.rules } n = true
        · rw [if_pos hh]
          exact rulesInvL_set_ptr _ n hne h1
        · rw [if_neg hh]; exact h1
  | loadRuleOp c =>
    cases c with
    | missing => exact h
    | unparseable => exact h
    | parsed d =>
      show rulesInvL (load_rule s (FileContent.parsed d)).2.rules
      simp only [load_rule]
      cases hfd : Rule.from_data d with
      | none => exact h
      | some rr =>
        have hne : rr.nameR ≠ pstr "_active" := by
          simp only [opAvoidsActive, hfd] at hop
          exact of_decide_eq_true hop
        exact rulesInvL_updateA_rule s.rules rr.nameR rr hne h

theorem runOps_rulesInv :
    ∀ (l : List Op) (s : Registry), rulesInvL s.rules →
      (∀ op ∈ l, opAvoidsActive op = true) → rulesInvL (runOps s l).rules := by
  intro l
  induction l with
  | nil => intro s h _; exact h
  | cons op rest ih =>
    intro s h hops
    exact ih (applyOp s op)
      (applyOp_rulesInv s op (hops op (List.mem_cons_self op rest)) h)
      (fun o ho => hops o (List.mem_cons_of_mem op ho))

end Naming

namespace Naming

/-- C10 counterexample: `set_active_rule("_active")` is accepted (the key
exists), after which `active_rule()` returns the *string* `"_active"` —
the pointer cell's own value — which is neither nothing nor a Rule object,
so the claimed invariant does not hold in every reachable state. -/
theorem c10_active_value_cex :
    (set_active_rule initState (pstr "_active")).1 = true ∧
    active_rule (set_active_rule initState (pstr "_active")).2
      = Except.ok (some (RVal.pstrv (pstr "_active"))) ∧
    isRuleVal (RVal.pstrv (pstr "_active")) = false ∧
    some (RVal.pstrv (pstr "_active")) ≠ (none : Option RVal) := by
  decide

/-- C10 (amended): provided `"_active"` is never used as a rule name, in
every reachable state `active_rule()` returns nothing or the Rule
registered under the name held by the active pointer; after `remove_rule`
deletes the rule the active pointer names (the pointer itself is not
cleared), `active_rule()` returns nothing; and a subsequent `add_rule` of
a new rule makes that new rule the active one. -/
theorem c10_active_rule_wellformed :
    (∀ l, (∀ op ∈ l, opAvoidsActive op = true) →
      active_rule (runOps initState l) = Except.ok none ∨
      ∃ nm rr, lookupA (pstr "_active") (runOps initState l).rules
          = some (RVal.pstrv nm) ∧
        lookupA nm (runOps initState l).rules = some (RVal.prule rr) ∧
        active_rule (runOps initState l) = Except.ok (some (RVal.prule rr))) ∧
    (∀ s nm rr, lookupA (pstr "_active") s.rules = some (RVal.pstrv nm) →
      nm ≠ pstr "_active" → lookupA nm s.rules = some (RVal.prule rr) →
      (remove_rule s nm).1 = true ∧
      active_rule (remove_rule s nm).2 = Except.ok none) ∧
    (∀ s nm m fs, lookupA (pstr "_active") s.rules = some (RVal.pstrv nm) →
      nm ≠ pstr "_active" → m ≠ pstr "_active" → lookupA nm s.rules = none →
      active_rule (add_rule s m fs).2
        = Except.ok (some (RVal.prule ⟨m, fs⟩))) := by
  refine ⟨?_, ?_, ?_⟩
  · intro l hl
    exact active_rule_of_inv (runOps initState l)
      (runOps_rulesInv l initState rulesInv_init hl)
  · intro s nm rr h1 h2 h3
    have hh : has_rule s nm = true := by
      unfold has_rule
      rw [h3]
      rfl
    constructor
    · unfold remove_rule
      rw [if_pos hh]
    · unfold remove_rule
      rw [if_pos hh]
      unfold active_rule
      have e1 : lookupA (pstr "_active") (eraseA nm s.rules)
          = some (RVal.pstrv nm) := by
        rw [lookupA_eraseA, if_neg (fun he => h2 he.symm)]
        exact h1
      rw [e1]
      show Except.ok (rulesGet (eraseA nm s.rules) (RVal.pstrv nm)) = Except.ok none
      simp only [rulesGet]
      rw [lookupA_eraseA, if_pos rfl]
  · intro s nm m fs h1 h2 h3 h4
    simp only [add_rule]
    by_cases hmn : nm = m
    · subst hmn
      have e1 : lookupA (pstr "_active") (updateA nm (RVal.prule ⟨nm, fs⟩) s.rules)
          = some (RVal.pstrv nm) := by
        rw [lookupA_updateA_ne _ _ (fun he => h3 he.symm)]
        exact h1
      have hact1 : active_rule { s with rules := updateA nm (RVal.prule ⟨nm, fs⟩) s.rules }
          = Except.ok (some (RVal.prule ⟨nm, fs⟩)) := by
        unfold active_rule
        rw [e1]
        show Except.ok (rulesGet (updateA nm (RVal.prule ⟨nm, fs⟩) s.rules)
          (RVal.pstrv nm)) = _
        simp only [rulesGet]
        rw [lookupA_updateA_self]
      rw [hact1]
      exact hact1
    · have e1 : lookupA (pstr "_active") (updateA m (RVal.prule ⟨m, fs⟩) s.rules)
          = some (RVal.pstrv nm) := by
        rw [lookupA_updateA_ne _ _ (fun he => h3 he.symm)]
        exact h1
      have e2 : lookupA nm (updateA m (RVal.prule ⟨m, fs⟩) s.rules) = none := by
        rw [lookupA_updateA_ne _ _ hmn]
        exact h4
      have hact1 : active_rule { s with rules := updateA m (RVal.prule ⟨m, fs⟩) s.rules }
          = Except.ok none := by
        unfold active_rule
        rw [e1]
        show Except.ok (rulesGet (updateA m (RVal.prule ⟨m, fs⟩) s.rules)
          (RVal.pstrv nm)) = _
        simp only [rulesGet]
        rw [e2]
      rw [hact1]
      have hh : has_rule { s with rules := updateA m (RVal.prule ⟨m, fs⟩) s.rules } m
          = true := by
        unfold has_rule
        show (lookupA m (updateA m (RVal.prule ⟨m, fs⟩) s.rules)).isSome = true
        rw [lookupA_updateA_self]
        rfl
      unfold set_active_rule
      rw [if_pos hh]
      unfold active_rule
      show (match lookupA (pstr "_active")
          (updateA (pstr "_active") (RVal.pstrv m)
            (updateA m (RVal.prule ⟨m, fs⟩) s.rules)) with
        | none => Except.error PyErr.keyError
        | some v => Except.ok (rulesGet
            (updateA (pstr "_active") (RVal.pstrv m)
              (updateA m (RVal.prule ⟨m, fs⟩) s.rules)) v))
        = Except.ok (some (RVal.prule ⟨m, fs⟩))
      rw [lookupA_updateA_self]
      show Except.ok (rulesGet (updateA (pstr "_active") (RVal.pstrv m)
        (updateA m (RVal.prule ⟨m, fs⟩) s.rules)) (RVal.pstrv m)) = _
      simp only [rulesGet]
      rw [lookupA_updateA_ne _ _ (fun he => h3 he), lookupA_updateA_self]

/-- C10 witness: the amended theorem exercised on a concrete registry:
part one along the operation list `[add_rule "x" ["f"]]`, part two removing
the active rule `"x"`, part three re-adding a rule `"y"` afterwards. -/
theorem c10_active_rule_wellformed_witness :
    (active_rule (runOps initState [Op.addRuleOp (pstr "x") [pstr "f"]])
        = Except.ok none ∨
      ∃ nm rr, lookupA (pstr "_active")
          (runOps initState [Op.addRuleOp (pstr "x") [pstr "f"]]).rules
          = some (RVal.pstrv nm) ∧
        lookupA nm (runOps initState [Op.addRuleOp (pstr "x") [pstr "f"]]).rules
          = some (RVal.prule rr) ∧
        active_rule (runOps initState [Op.addRuleOp (pstr "x") [pstr "f"]])
          = Except.ok (some (RVal.prule rr))) ∧
    ((remove_rule c10WitS (pstr "x")).1 = true ∧
      active_rule (remove_rule c10WitS (pstr "x")).2 = Except.ok none) ∧
    active_rule (add_rule (remove_rule c10WitS (pstr "x")).2
        (pstr "y") [pstr "g"]).2
      = Except.ok (some (RVal.prule ⟨pstr "y", [pstr "g"]⟩)) :=
  ⟨c10_active_rule_wellformed.1 [Op.addRuleOp (pstr "x") [pstr "f"]] (by decide),
   c10_active_rule_wellformed.2.1 c10WitS (pstr "x") ⟨pstr "x", [pstr "f"]⟩
     (by decide) (by decide) (by decide),
   c10_active_rule_wellformed.2.2 (remove_rule c10WitS (pstr "x")).2
     (pstr "x") (pstr "y") [pstr "g"] (by decide) (by decide) (by decide) (by decide)⟩

end Naming
